import Mathlib

/-!
Verification of the frame parser of the D6T-32L-01A thermal-sensor UART
visualizer (`Src/visualize.py`).

The Python function `parse_uart_data` is embedded shallowly:

* lines of serial text are `List Char` values (the decoded output of
  `ser.readline().decode(...)`, before `.strip()`);
* the wall-clock window `PARSE_TIMEOUT` is modelled as fuel: each pass of
  the `while` loop consumes one unit, and when the input stream is
  exhausted further `readline` calls return the empty line (the serial
  read timeout), which the loop skips;
* Python floats are modelled as exact rationals: the program only ever
  converts decimal literals that ℚ represents exactly, modulo the binary
  rounding of IEEE floats which is immaterial to the parsing logic;
* each of the three regular expressions of the source is implemented as a
  dedicated matcher.  In all three patterns the greedy `\d+` pieces are
  followed by a character that is not a digit (`.`, a space, or the end of
  the pattern), so backtracking never changes the outcome and
  maximal-munch matching is exact.  `re.search` is leftmost search over
  all start positions; `re.findall` with `re.MULTILINE` anchors `^`/`$` of
  a newline-free pattern matches exactly the whole lines of the buffer,
  so it is the filter of the full-line matcher over the buffer split at
  newlines.
-/

namespace D6T

/-- ASCII whitespace of Python `str` methods (`strip`, `split`). -/
def pyWs (c : Char) : Bool :=
  c == '\x20' || c == '\t' || c == '\n' || c == '\r' || c == '\x0b' || c == '\x0c'

/-- Model of Python `str.strip()`. -/
def stripChars (l : List Char) : List Char :=
  ((l.dropWhile pyWs).reverse.dropWhile pyWs).reverse

/-- `\d` of the regular expressions. -/
def isDigitB (c : Char) : Bool := '0' ≤ c && c ≤ '9'

/-- `[0-9A-Fa-f]` of the PTAT regular expression. -/
def isHexB (c : Char) : Bool :=
  isDigitB c || ('A' ≤ c && c ≤ 'F') || ('a' ≤ c && c ≤ 'f')

def digitVal (c : Char) : ℕ := c.toNat - '0'.toNat

def natOfDigits (l : List Char) : ℕ := l.foldl (fun a c => 10 * a + digitVal c) 0

/-- Worker for `splitWs`; `acc` is the current token, reversed. -/
def splitWsAux : List Char → List Char → List (List Char)
  | [], acc => if acc.isEmpty then [] else [acc.reverse]
  | c :: l, acc =>
    if pyWs c then
      (if acc.isEmpty then splitWsAux l [] else acc.reverse :: splitWsAux l [])
    else splitWsAux l (c :: acc)

/-- Model of Python `str.split()` with no argument: split on runs of
whitespace, discarding empty tokens. -/
def splitWs (l : List Char) : List (List Char) := splitWsAux l []

/-- The rational `ip.fp` (digit blocks around the decimal point), written
with `mkRat` so that the kernel can evaluate it. -/
def magVal (ip fp : List Char) : ℚ :=
  mkRat ((natOfDigits ip * 10 ^ fp.length + natOfDigits fp : ℕ) : ℤ)
    (10 ^ fp.length)

/-- Magnitude part of a Python float literal: digits with an optional
fractional part.  Modelled from Python `float()`; the exponent, infinity
and nan forms are omitted, as no text this program converts uses them. -/
def pyFloatMag (l : List Char) : Option ℚ :=
  let ip := l.takeWhile isDigitB
  match l.dropWhile isDigitB with
  | [] => if ip.isEmpty then none else some (magVal ip [])
  | c :: r =>
    if c = '.' then
      if r.all isDigitB && !(ip.isEmpty && r.isEmpty) then
        some (magVal ip r)
      else none
    else none

/-- Model of Python `float()` on a token (sign, then magnitude). -/
def pyFloat (l : List Char) : Option ℚ :=
  match l with
  | [] => pyFloatMag []
  | c :: r =>
    if c = '-' then (pyFloatMag r).map (fun q => -q)
    else if c = '+' then pyFloatMag r
    else pyFloatMag (c :: r)

/-- Value of a signed decimal literal, as `float()` computes it. -/
def decValue (sgn : Bool) (ip fp : List Char) : ℚ :=
  if sgn then -magVal ip fp else magVal ip fp

/-- Consume the `-?` of the decimal fragment. -/
def splitSign (l : List Char) : Bool × List Char :=
  match l with
  | [] => (false, [])
  | c :: r => if c = '-' then (true, r) else (false, c :: r)

/-- The `\d+\.\d+` part of the decimal fragment, after the sign. -/
def matchDecMag (sgn : Bool) (l : List Char) : Option (ℚ × List Char) :=
  let ip := l.takeWhile isDigitB
  match l.dropWhile isDigitB with
  | [] => none
  | c :: l3 =>
    if c = '.' then
      let fp := l3.takeWhile isDigitB
      if ip.isEmpty || fp.isEmpty then none
      else some (decValue sgn ip fp, l3.dropWhile isDigitB)
    else none

/-- Matcher for the regex fragment `-?\d+\.\d+` at the head of the input;
returns the converted value together with the unconsumed rest.  In every
pattern of the program this fragment is followed by a non-digit (a space,
`' C'`, the line end), so the greedy `\d+` never backtracks and
maximal munch is exact. -/
def matchDec (l : List Char) : Option (ℚ × List Char) :=
  matchDecMag (splitSign l).1 (splitSign l).2

/-- Match a literal pattern string at the head of the input. -/
def lit : List Char → List Char → Option (List Char)
  | [], l => some l
  | _ :: _, [] => none
  | p :: ps, c :: l => if c = p then lit ps l else none

/-- The literal `PTAT: ` opening the PTAT pattern. -/
def ptatPre : List Char := ['P', 'T', 'A', 'T', ':', '\x20']

/-- The literal ` C, PEC: 0x` between the decimal group and the checksum. -/
def ptatMid : List Char :=
  ['\x20', 'C', ',', '\x20', 'P', 'E', 'C', ':', '\x20', '0', 'x']

/-- The literal `Avg Pixel Temp: ` opening the average pattern. -/
def avgPre : List Char :=
  ['A', 'v', 'g', '\x20', 'P', 'i', 'x', 'e', 'l', '\x20',
   'T', 'e', 'm', 'p', ':', '\x20']

/-- The literal ` C` closing the average pattern. -/
def avgSuf : List Char := ['\x20', 'C']

/-- The regex `PTAT: (-?\d+\.\d+) C, PEC: 0x[0-9A-Fa-f]{2}` matched at the
head of the input; the value is `float()` of group 1. -/
def matchPtatAt (l : List Char) : Option ℚ :=
  match lit ptatPre l with
  | none => none
  | some r1 =>
    match matchDec r1 with
    | none => none
    | some vr =>
      match lit ptatMid vr.2 with
      | none => none
      | some r3 =>
        match r3 with
        | h1 :: h2 :: _ => if isHexB h1 && isHexB h2 then some vr.1 else none
        | _ => none

/-- `re.search` of the PTAT pattern: leftmost match over all start
positions. -/
def searchPtat : List Char → Option ℚ
  | [] => none
  | c :: l =>
    match matchPtatAt (c :: l) with
    | some v => some v
    | none => searchPtat l

/-- The regex `Avg Pixel Temp: (-?\d+\.\d+) C` matched at the head. -/
def matchAvgAt (l : List Char) : Option ℚ :=
  match lit avgPre l with
  | none => none
  | some r1 =>
    match matchDec r1 with
    | none => none
    | some vr =>
      match lit avgSuf vr.2 with
      | none => none
      | some _ => some vr.1

/-- `re.search` of the average-temperature pattern. -/
def searchAvg : List Char → Option ℚ
  | [] => none
  | c :: l =>
    match matchAvgAt (c :: l) with
    | some v => some v
    | none => searchAvg l

/-- `(?: -?\d+\.\d+){n}` followed by the line end. -/
def gridTail : ℕ → List Char → Option (List ℚ)
  | 0, l => if l = [] then some [] else none
  | n + 1, l =>
    match l with
    | [] => none
    | c :: r =>
      if c = '\x20' then
        match matchDec r with
        | some vr => (gridTail n vr.2).map (fun t => vr.1 :: t)
        | none => none
      else none

/-- Full-line matcher of the grid-row regex
`^(-?\d+\.\d+(?: -?\d+\.\d+){31})$`, returning the 32 converted values. -/
def gridLineParse (l : List Char) : Option (List ℚ) :=
  match matchDec l with
  | some vr => (gridTail 31 vr.2).map (fun t => vr.1 :: t)
  | none => none

/-- Worker for `splitLines`; `acc` is the current line, reversed. -/
def splitLinesAux : List Char → List Char → List (List Char)
  | [], acc => [acc.reverse]
  | c :: l, acc =>
    if c = '\n' then acc.reverse :: splitLinesAux l []
    else splitLinesAux l (c :: acc)

/-- The lines of the buffer, split at newlines (keeping empty segments;
an empty segment never matches the grid-row pattern). -/
def splitLines (l : List Char) : List (List Char) := splitLinesAux l []

/-- `re.findall` of the grid-row pattern with `re.MULTILINE`: the pattern
is newline-free and anchored by `^` and `$`, so its matches are exactly
the whole lines that the full-line matcher accepts. -/
def findallGrid (buf : List Char) : List (List Char) :=
  (splitLines buf).filter (fun l => (gridLineParse l).isSome)

/-- `list(map(float, line.split()))`, `None` on a `ValueError`. -/
def rowFloats (l : List Char) : Option (List ℚ) := (splitWs l).mapM pyFloat

/-- The `for row in range(32)` loop body over the matched lines: convert
each line, write it into row `i` of the pixel grid when it has 32 values,
abort with the partially updated grid on a conversion error. -/
def applyRowsAux : List (List ℚ) → ℕ → List (List Char) → List (List ℚ) × Bool
  | px, _, [] => (px, true)
  | px, i, l :: r =>
    match rowFloats l with
    | none => (px, false)
    | some vals =>
      applyRowsAux (if vals.length = 32 then px.set i vals else px) (i + 1) r

/-- The grid-filling loop of the source: rows `0..31` are taken from the
first 32 matched lines. -/
def applyRows (px : List (List ℚ)) (gls : List (List Char)) :
    List (List ℚ) × Bool :=
  applyRowsAux px 0 (gls.take 32)

/-- `np.zeros((32, 32))`. -/
def zeros32 : List (List ℚ) := List.replicate 32 (List.replicate 32 (mkRat 0 1))

/-- The loop state of `parse_uart_data`: the two scalar variables, the
pixel array (allocated once, mutated in place), and the text buffer. -/
structure PSt where
  ptat : Option ℚ
  avg_temp : Option ℚ
  pixels : List (List ℚ)
  buffer : List Char
deriving DecidableEq

/-- Result of one pass of the `while` loop: either `continue` with a new
state, or `return` with the triple of the source's `return` statements. -/
inductive StepRes where
  | cont : PSt → StepRes
  | done : Option ℚ × Option ℚ × Option (List (List ℚ)) → StepRes
deriving DecidableEq

/-- Lines 32-34 of the source: overwrite `ptat` when the buffer has a
PTAT match, keep the old value otherwise. -/
def updPtat (buf : List Char) (old : Option ℚ) : Option ℚ :=
  match searchPtat buf with
  | some v => some v
  | none => old

/-- Lines 37-39 of the source, for `avg_temp`. -/
def updAvg (buf : List Char) (old : Option ℚ) : Option ℚ :=
  match searchAvg buf with
  | some v => some v
  | none => old

/-- `buffer += line + '\n'`. -/
def bufAppend (st : PSt) (line : List Char) : List Char :=
  st.buffer ++ line ++ ['\n']

/-- The `try`/`except ValueError` block of lines 45-54, as a function of
the local variable `grid_lines`: on success return the frame, on a
conversion error clear the buffer and `continue` (skipping the
buffer-size check). -/
def gridAttempt (p a : Option ℚ) (px : List (List ℚ))
    (gls : List (List Char)) : StepRes :=
  let res := applyRows px gls
  if res.2 then .done (p, a, some res.1)
  else .cont ⟨p, a, res.1, []⟩

/-- Lines 56-59: clear the buffer when it exceeds 10000 characters. -/
def overflowCheck (p a : Option ℚ) (px : List (List ℚ)) (buf : List Char) :
    PSt :=
  if buf.length > 10000 then ⟨p, a, px, []⟩ else ⟨p, a, px, buf⟩

/-- One pass of the `while` loop of `parse_uart_data` on the decoded text
`raw` of one `readline` call. -/
def step (st : PSt) (raw : List Char) : StepRes :=
  let line := stripChars raw
  if line = [] then .cont st
  else
    let buf := bufAppend st line
    let p := updPtat buf st.ptat
    let a := updAvg buf st.avg_temp
    if p.isSome && a.isSome then
      let gls := findallGrid buf
      if gls.length ≥ 32 then gridAttempt p a st.pixels gls
      else .cont (overflowCheck p a st.pixels buf)
    else .cont (overflowCheck p a st.pixels buf)

/-- The return type of `parse_uart_data`: the three returned values, each
absent exactly when the source returns `None` in that position. -/
abbrev PRes := Option ℚ × Option ℚ × Option (List (List ℚ))

/-- `return None, None, None`. -/
def noData : PRes := (none, none, none)

/-- The `while time.time() - start_time < PARSE_TIMEOUT` loop: one fuel
unit per pass; an exhausted input stream yields empty reads. -/
def runAux : ℕ → PSt → List (List Char) → PRes
  | 0, _, _ => noData
  | n + 1, st, input =>
    match input with
    | [] =>
      match step st [] with
      | .done r => r
      | .cont st2 => runAux n st2 []
    | raw :: rest =>
      match step st raw with
      | .done r => r
      | .cont st2 => runAux n st2 rest

/-- The initial state of `parse_uart_data` (lines 18-21). -/
def initSt : PSt := ⟨none, none, zeros32, []⟩

/-- `parse_uart_data`, over a stream of decoded lines and a fuel bound
standing for the `PARSE_TIMEOUT` window. -/
def parse_uart_data (fuel : ℕ) (input : List (List Char)) : PRes :=
  runAux fuel initSt input

/-! ### Well-formed wire text -/

/-- A signed decimal literal as matched by `-?\d+\.\d+`: an optional
minus sign, a nonempty integer digit block and a nonempty fraction digit
block. -/
structure Dec where
  neg : Bool
  ip : List Char
  fp : List Char
  hip : ip ≠ [] ∧ ip.all isDigitB
  hfp : fp ≠ [] ∧ fp.all isDigitB

/-- The text of a signed decimal literal. -/
def decChars (d : Dec) : List Char :=
  (if d.neg then ['-'] else []) ++ d.ip ++ '.' :: d.fp

/-- The value `float()` assigns to the literal. -/
def decVal (d : Dec) : ℚ := decValue d.neg d.ip d.fp

/-- A well-formed PTAT line. -/
def ptatLineC (d : Dec) (h1 h2 : Char) : List Char :=
  ptatPre ++ decChars d ++ ptatMid ++ [h1, h2]

/-- A well-formed average-temperature line. -/
def avgLineC (d : Dec) : List Char :=
  avgPre ++ decChars d ++ avgSuf

/-- Join tokens with single spaces (the separator of the grid-row
pattern). -/
def joinSpace : List (List Char) → List Char
  | [] => []
  | [t] => t
  | t :: ts => t ++ '\x20' :: joinSpace ts

/-- A well-formed grid row: its decimals joined by single spaces. -/
def rowChars (ds : List Dec) : List Char := joinSpace (ds.map decChars)

/-- The buffer text produced by appending the given lines. -/
def linesBuf (ls : List (List Char)) : List Char :=
  ls.foldr (fun l acc => l ++ '\n' :: acc) []

/-- Modelled from the spec words of the grid-line claim: a line whose
whitespace-separated tokens are exactly 32 signed decimals.  This is the
spec-side recognizer, to be compared with `findallGrid` / `gridLineParse`
from the source. -/
def specGridLine (l : List Char) : Bool :=
  (splitWs l).length == 32 && (splitWs l).all (fun t =>
    match matchDec t with
    | some vr => vr.2.isEmpty
    | none => false)

/-- Tokens each preceded by a single space, concatenated. -/
def catSpace (ts : List (List Char)) : List Char :=
  (ts.map (fun t => '\x20' :: t)).foldr (fun a b => a ++ b) []

/-- The text of the grid-row decimals after the first one. -/
def tailChars (ds : List Dec) : List Char := catSpace (ds.map decChars)

/-- The shape invariant of the pixel array. -/
def pixelsWf (px : List (List ℚ)) : Prop :=
  px.length = 32 ∧ ∀ r ∈ px, r.length = 32

/-- The characters that can occur in the grid part of the buffer. -/
def gridChar (c : Char) : Prop :=
  c = '\x20' ∨ c = '-' ∨ c = '.' ∨ c = '\n' ∨ isDigitB c = true

/-! ### Concrete wire text used by the witnesses -/

/-- The decimal `0.0`. -/
def zDec : Dec := ⟨false, ['0'], ['0'], by decide, by decide⟩

/-- The decimal `25.3` of the spec's end-to-end example. -/
def pDecEx : Dec := ⟨false, ['2', '5'], ['3'], by decide, by decide⟩

/-- The decimal `24.8` of the spec's end-to-end example. -/
def aDecEx : Dec := ⟨false, ['2', '4'], ['8'], by decide, by decide⟩

/-- A grid row of 32 zeros. -/
def zRowEx : List Dec := List.replicate 32 zDec

/-- 32 grid rows of 32 zeros. -/
def gridRowsEx : List (List Dec) := List.replicate 32 zRowEx

/-- The input stream of the spec's end-to-end example. -/
def exInput : List (List Char) :=
  ptatLineC pDecEx '1' 'F' :: avgLineC aDecEx :: gridRowsEx.map rowChars

/-- A stream with both scalars but no grid lines. -/
def exNoGrid : List (List Char) :=
  [ptatLineC pDecEx '1' 'F', avgLineC aDecEx]

/-- A junk line long enough to overflow the buffer by itself. -/
def junkLine : List Char := List.replicate 10001 'x'

/-- Scalars, then a buffer-overflowing junk line, then the grid. -/
def combineInput : List (List Char) :=
  ptatLineC pDecEx '1' 'F' :: avgLineC aDecEx :: junkLine ::
    gridRowsEx.map rowChars

/-- `25.3` as a kernel-evaluable rational. -/
def exPtat : ℚ := mkRat 253 10

/-- `24.8` as a kernel-evaluable rational. -/
def exAvg : ℚ := mkRat 248 10

/-- A state whose buffer is 9990 characters, for the overflow witness. -/
def bigSt : PSt := ⟨none, none, zeros32, List.replicate 9990 'x'⟩

/-- An 11-character read that pushes `bigSt` past 10000 characters. -/
def rawC6 : List Char := ['0', '.', '1', '2', '3', '4', '5', '6', '7', '8', '9']

/-- A state that already has both scalars and 31 buffered grid rows. -/
def st8 : PSt :=
  ⟨some exPtat, some exAvg, zeros32,
    linesBuf ((List.replicate 31 zRowEx).map rowChars)⟩

/-- 32 zeros separated by whitespace, but with a tab as the first
separator. -/
def tabLineEx : List Char :=
  decChars zDec ++ '\t' :: rowChars (List.replicate 31 zDec)

/-! ### Character facts -/

theorem pyWs_eq_false_of_digit {c : Char} (h : isDigitB c = true) :
    pyWs c = false := by
  cases hw : pyWs c
  · rfl
  · exfalso
    unfold pyWs at hw
    simp only [Bool.or_eq_true, beq_iff_eq] at hw
    rcases hw with ((((h1 | h1) | h1) | h1) | h1) | h1 <;> subst h1 <;>
      exact absurd h (by decide)

theorem pyWs_eq_false_of_hex {c : Char} (h : isHexB c = true) :
    pyWs c = false := by
  cases hw : pyWs c
  · rfl
  · exfalso
    unfold pyWs at hw
    simp only [Bool.or_eq_true, beq_iff_eq] at hw
    rcases hw with ((((h1 | h1) | h1) | h1) | h1) | h1 <;> subst h1 <;>
      exact absurd h (by decide)

theorem ne_of_digit_of_not {c t : Char} (h : isDigitB c = true)
    (ht : isDigitB t = false) : c ≠ t := by
  intro he; subst he; rw [h] at ht; exact Bool.noConfusion ht

theorem ne_of_hex_of_not {c t : Char} (h : isHexB c = true)
    (ht : isHexB t = false) : c ≠ t := by
  intro he; subst he; rw [h] at ht; exact Bool.noConfusion ht

/-! ### takeWhile / dropWhile over a structured list -/

theorem takeWhile_append_of_all {p : Char → Bool} :
    ∀ l r : List Char, l.all p = true →
      (∀ c, r.head? = some c → p c = false) →
      (l ++ r).takeWhile p = l ∧ (l ++ r).dropWhile p = r := by
  intro l
  induction l with
  | nil =>
    intro r _ hr
    cases r with
    | nil => exact ⟨rfl, rfl⟩
    | cons c r =>
      refine ⟨?_, ?_⟩ <;>
        simp [List.takeWhile_cons, List.dropWhile_cons, hr c rfl]
  | cons a l ih =>
    intro r hl hr
    simp only [List.all_cons, Bool.and_eq_true] at hl
    have h2 := ih r hl.2 hr
    refine ⟨?_, ?_⟩
    · simpa [List.takeWhile_cons, hl.1] using h2.1
    · simpa [List.dropWhile_cons, hl.1] using h2.2

/-! ### stripChars -/

theorem stripChars_eq_self {l : List Char}
    (h1 : ∀ c, l.head? = some c → pyWs c = false)
    (h2 : ∀ c, l.getLast? = some c → pyWs c = false) :
    stripChars l = l := by
  unfold stripChars
  have hd : l.dropWhile pyWs = l := by
    cases l with
    | nil => rfl
    | cons a t => simp [List.dropWhile_cons, h1 a rfl]
  rw [hd]
  have hrev : l.reverse.dropWhile pyWs = l.reverse := by
    cases hr : l.reverse with
    | nil => rfl
    | cons a t =>
      have ha : l.getLast? = some a := by
        rw [← List.head?_reverse, hr]; rfl
      simp [List.dropWhile_cons, h2 a ha]
  rw [hrev, List.reverse_reverse]

/-! ### lit -/

theorem lit_self_append (p r : List Char) : lit p (p ++ r) = some r := by
  induction p with
  | nil => rfl
  | cons a p ih => simp [lit, ih]

theorem lit_cons_ne {a c : Char} {ps l : List Char} (h : c ≠ a) :
    lit (a :: ps) (c :: l) = none := by simp [lit, h]

theorem lit_cons_nil {a : Char} {ps : List Char} : lit (a :: ps) [] = none :=
  rfl

/-! ### matchDec -/

theorem splitSign_cons_ne {c : Char} {l : List Char} (h : c ≠ '-') :
    splitSign (c :: l) = (false, c :: l) := by simp [splitSign, h]

theorem matchDecMag_eq (sgn : Bool) (ip fp r : List Char)
    (hipne : ip ≠ []) (hipd : ip.all isDigitB = true)
    (hfpne : fp ≠ []) (hfpd : fp.all isDigitB = true)
    (hr : ∀ c, r.head? = some c → isDigitB c = false) :
    matchDecMag sgn (ip ++ '.' :: (fp ++ r)) =
      some (decValue sgn ip fp, r) := by
  have hdot : ∀ x, (('.' :: (fp ++ r)) : List Char).head? = some x →
      isDigitB x = false := by
    intro x hx
    simp only [List.head?_cons, Option.some.injEq] at hx
    subst hx; decide
  have hfpr := takeWhile_append_of_all fp r hfpd hr
  have hipr := takeWhile_append_of_all ip ('.' :: (fp ++ r)) hipd hdot
  unfold matchDecMag
  rw [hipr.1, hipr.2]
  simp only [if_pos rfl]
  rw [hfpr.1, hfpr.2]
  simp [List.isEmpty_eq_true, hipne, hfpne]

theorem decChars_shape (d : Dec) (r : List Char) :
    decChars d ++ r =
      (if d.neg then ['-'] else []) ++ (d.ip ++ '.' :: (d.fp ++ r)) := by
  simp [decChars, List.append_assoc]

theorem matchDec_decChars (d : Dec) (r : List Char)
    (hr : ∀ c, r.head? = some c → isDigitB c = false) :
    matchDec (decChars d ++ r) = some (decVal d, r) := by
  obtain ⟨neg, ip, fp, hip, hfp⟩ := d
  obtain ⟨i0, ip', hipeq⟩ : ∃ i0 ip', ip = i0 :: ip' := by
    cases hip0 : ip with
    | nil => exact absurd hip0 hip.1
    | cons a b => exact ⟨a, b, rfl⟩
  have hi0 : isDigitB i0 = true := by
    have h := hip.2; rw [hipeq] at h
    simp only [List.all_cons, Bool.and_eq_true] at h
    exact h.1
  have hi0ne : i0 ≠ '-' := ne_of_digit_of_not hi0 (by decide)
  cases neg with
  | true =>
    have hsh : decChars ⟨true, ip, fp, hip, hfp⟩ ++ r =
        '-' :: (ip ++ '.' :: (fp ++ r)) := by
      simp [decChars]
    rw [hsh]
    have hms : matchDec ('-' :: (ip ++ '.' :: (fp ++ r))) =
        matchDecMag true (ip ++ '.' :: (fp ++ r)) := by
      unfold matchDec splitSign
      simp
    rw [hms, matchDecMag_eq true ip fp r hip.1 hip.2 hfp.1 hfp.2 hr]
    rfl
  | false =>
    have hsh : decChars ⟨false, ip, fp, hip, hfp⟩ ++ r =
        ip ++ '.' :: (fp ++ r) := by
      simp [decChars]
    rw [hsh]
    have hms : matchDec (ip ++ '.' :: (fp ++ r)) =
        matchDecMag false (ip ++ '.' :: (fp ++ r)) := by
      rw [hipeq, List.cons_append]
      unfold matchDec
      rw [splitSign_cons_ne hi0ne]
    rw [hms, matchDecMag_eq false ip fp r hip.1 hip.2 hfp.1 hfp.2 hr]
    rfl

theorem matchDecMag_complete {sgn : Bool} {l : List Char} {v : ℚ}
    {r : List Char} (h : matchDecMag sgn l = some (v, r)) :
    ∃ ip fp, ip ≠ [] ∧ ip.all isDigitB = true ∧ fp ≠ [] ∧
      fp.all isDigitB = true ∧ l = ip ++ '.' :: (fp ++ r) ∧
      v = decValue sgn ip fp := by
  unfold matchDecMag at h
  cases hd : l.dropWhile isDigitB with
  | nil => rw [hd] at h; exact absurd h (by simp)
  | cons c l3 =>
    rw [hd] at h
    dsimp only at h
    by_cases hc : c = '.'
    · rw [if_pos hc] at h
      by_cases he : ((l.takeWhile isDigitB).isEmpty ||
          (l3.takeWhile isDigitB).isEmpty) = true
      · rw [if_pos he] at h; exact absurd h (by simp)
      · rw [if_neg he] at h
        simp only [Option.some.injEq, Prod.mk.injEq] at h
        simp only [Bool.or_eq_true, not_or, List.isEmpty_eq_true] at he
        refine ⟨l.takeWhile isDigitB, l3.takeWhile isDigitB,
          he.1, ?_, he.2, ?_, ?_, h.1.symm⟩
        · simp only [List.all_eq_true]
          exact fun x hx => List.mem_takeWhile_imp hx
        · simp only [List.all_eq_true]
          exact fun x hx => List.mem_takeWhile_imp hx
        · have hl : l.takeWhile isDigitB ++ l.dropWhile isDigitB = l :=
            List.takeWhile_append_dropWhile isDigitB l
          have hl3 : l3.takeWhile isDigitB ++ l3.dropWhile isDigitB = l3 :=
            List.takeWhile_append_dropWhile isDigitB l3
          subst hc
          rw [← h.2, hl3]
          conv_lhs => rw [← hl, hd]
    · rw [if_neg hc] at h; exact absurd h (by simp)

theorem matchDec_complete {l : List Char} {v : ℚ} {r : List Char}
    (h : matchDec l = some (v, r)) :
    ∃ d : Dec, l = decChars d ++ r ∧ v = decVal d := by
  unfold matchDec at h
  cases l with
  | nil =>
    have hsp : splitSign ([] : List Char) = (false, []) := rfl
    rw [hsp] at h
    exact absurd h (by simp [matchDecMag])
  | cons c l2 =>
    by_cases hc : c = '-'
    · subst hc
      have hsp : splitSign ('-' :: l2) = (true, l2) := by simp [splitSign]
      rw [hsp] at h
      obtain ⟨ip, fp, h1, h2, h3, h4, h5, h6⟩ := matchDecMag_complete h
      have h5' : l2 = ip ++ '.' :: (fp ++ r) := h5
      have h6' : v = decValue true ip fp := h6
      refine ⟨⟨true, ip, fp, ⟨h1, h2⟩, ⟨h3, h4⟩⟩, ?_, ?_⟩
      · simp [decChars, h5']
      · simpa [decVal] using h6'
    · rw [splitSign_cons_ne hc] at h
      obtain ⟨ip, fp, h1, h2, h3, h4, h5, h6⟩ := matchDecMag_complete h
      have h5' : c :: l2 = ip ++ '.' :: (fp ++ r) := h5
      have h6' : v = decValue false ip fp := h6
      refine ⟨⟨false, ip, fp, ⟨h1, h2⟩, ⟨h3, h4⟩⟩, ?_, ?_⟩
      · simp [decChars, h5']
      · simpa [decVal] using h6'

theorem mem_decChars {c : Char} {d : Dec} (h : c ∈ decChars d) :
    c = '-' ∨ c = '.' ∨ isDigitB c = true := by
  unfold decChars at h
  rcases List.mem_append.1 h with h | h
  · rcases List.mem_append.1 h with h | h
    · cases hn : d.neg
      · rw [hn] at h; exact absurd h (by simp)
      · rw [hn] at h; simp at h; exact Or.inl h
    · have := d.hip.2
      rw [List.all_eq_true] at this
      exact Or.inr (Or.inr (this c h))
  · rcases List.mem_cons.1 h with h | h
    · exact Or.inr (Or.inl h)
    · have := d.hfp.2
      rw [List.all_eq_true] at this
      exact Or.inr (Or.inr (this c h))

theorem decChars_ne_nil (d : Dec) : decChars d ≠ [] := by
  unfold decChars
  intro h
  exact List.cons_ne_nil '.' d.fp (List.append_eq_nil.1 h).2

/-! ### The PTAT search -/

theorem matchPtatAt_cons_ne {c : Char} {l : List Char} (h : c ≠ 'P') :
    matchPtatAt (c :: l) = none := by
  unfold matchPtatAt ptatPre
  rw [lit_cons_ne h]

theorem matchPtatAt_nil : matchPtatAt [] = none := rfl

theorem matchPtatAt_front (d : Dec) (h1 h2 : Char) (r : List Char)
    (hh1 : isHexB h1 = true) (hh2 : isHexB h2 = true) :
    matchPtatAt (ptatLineC d h1 h2 ++ r) = some (decVal d) := by
  have hsh : ptatLineC d h1 h2 ++ r =
      ptatPre ++ (decChars d ++ (ptatMid ++ (h1 :: h2 :: r))) := by
    simp [ptatLineC, List.append_assoc]
  have hr2 : ∀ c, (ptatMid ++ (h1 :: h2 :: r)).head? = some c →
      isDigitB c = false := by
    intro c hc
    rw [show ptatMid ++ (h1 :: h2 :: r) =
      '\x20' :: (['C', ',', '\x20', 'P', 'E', 'C', ':', '\x20', '0', 'x'] ++
        (h1 :: h2 :: r)) from rfl] at hc
    simp only [List.head?_cons, Option.some.injEq] at hc
    subst hc; decide
  rw [hsh]
  unfold matchPtatAt
  rw [lit_self_append]
  dsimp only
  rw [matchDec_decChars d _ hr2]
  dsimp only
  rw [lit_self_append]
  dsimp only
  simp [hh1, hh2]

theorem searchPtat_of_matchAt {l : List Char} {v : ℚ}
    (h : matchPtatAt l = some v) : searchPtat l = some v := by
  cases l with
  | nil => rw [matchPtatAt_nil] at h; exact Option.noConfusion h
  | cons c l => simp [searchPtat, h]

theorem searchPtat_append {pre r : List Char} (h : ∀ c ∈ pre, c ≠ 'P') :
    searchPtat (pre ++ r) = searchPtat r := by
  induction pre with
  | nil => rfl
  | cons a pre ih =>
    have ha : a ≠ 'P' := h a (List.mem_cons_self a pre)
    have hrec := ih fun c hc => h c (List.mem_cons_of_mem a hc)
    rw [List.cons_append]
    simp [searchPtat, matchPtatAt_cons_ne ha, hrec]

theorem searchPtat_none_of_no_P {l : List Char} (h : ∀ c ∈ l, c ≠ 'P') :
    searchPtat l = none := by
  induction l with
  | nil => rfl
  | cons a l ih =>
    have ha : a ≠ 'P' := h a (List.mem_cons_self a l)
    have hrec := ih fun c hc => h c (List.mem_cons_of_mem a hc)
    simp [searchPtat, matchPtatAt_cons_ne ha, hrec]

/-! ### The average-temperature search -/

theorem matchAvgAt_cons_ne {c : Char} {l : List Char} (h : c ≠ 'A') :
    matchAvgAt (c :: l) = none := by
  unfold matchAvgAt avgPre
  rw [lit_cons_ne h]

theorem matchAvgAt_nil : matchAvgAt [] = none := rfl

theorem matchAvgAt_two_ne {c2 : Char} {l : List Char} (h : c2 ≠ 'v') :
    matchAvgAt ('A' :: c2 :: l) = none := by
  unfold matchAvgAt avgPre
  rw [show lit
      ['A', 'v', 'g', '\x20', 'P', 'i', 'x', 'e', 'l', '\x20',
       'T', 'e', 'm', 'p', ':', '\x20'] ('A' :: c2 :: l) =
      lit ['v', 'g', '\x20', 'P', 'i', 'x', 'e', 'l', '\x20',
       'T', 'e', 'm', 'p', ':', '\x20'] (c2 :: l) from by simp [lit]]
  rw [lit_cons_ne h]

theorem matchAvgAt_single : matchAvgAt ['A'] = none := by decide

theorem matchAvgAt_front (d : Dec) (r : List Char) :
    matchAvgAt (avgLineC d ++ r) = some (decVal d) := by
  have hsh : avgLineC d ++ r =
      avgPre ++ (decChars d ++ (avgSuf ++ r)) := by
    simp [avgLineC, List.append_assoc]
  have hr2 : ∀ c, (avgSuf ++ r).head? = some c → isDigitB c = false := by
    intro c hc
    rw [show avgSuf ++ r = '\x20' :: (['C'] ++ r) from rfl] at hc
    simp only [List.head?_cons, Option.some.injEq] at hc
    subst hc; decide
  rw [hsh]
  unfold matchAvgAt
  rw [lit_self_append]
  dsimp only
  rw [matchDec_decChars d _ hr2]
  dsimp only
  rw [lit_self_append]

theorem searchAvg_of_matchAt {l : List Char} {v : ℚ}
    (h : matchAvgAt l = some v) : searchAvg l = some v := by
  cases l with
  | nil => rw [matchAvgAt_nil] at h; exact Option.noConfusion h
  | cons c l => simp [searchAvg, h]

/-- Skip a prefix that contains no `v`: a match of the average pattern
starting inside it would need an `A` there followed by a `v` either inside
it or at the head of the rest. -/
theorem searchAvg_append_no_v {pre r : List Char}
    (hpre : ∀ c ∈ pre, c ≠ 'v') (hr : ∀ c, r.head? = some c → c ≠ 'v') :
    searchAvg (pre ++ r) = searchAvg r := by
  induction pre with
  | nil => rfl
  | cons a pre ih =>
    have hrec := ih fun c hc => hpre c (List.mem_cons_of_mem a hc)
    have hm : matchAvgAt (a :: (pre ++ r)) = none := by
      by_cases ha : a = 'A'
      · subst ha
        cases hp2 : pre with
        | nil =>
          cases hrr : r with
          | nil => exact matchAvgAt_single
          | cons c2 r2 =>
            exact matchAvgAt_two_ne (hr c2 (by rw [hrr]; rfl))
        | cons b pre2 =>
          exact matchAvgAt_two_ne (hpre b (by simp [hp2]))
      · exact matchAvgAt_cons_ne ha
    rw [List.cons_append]
    simp [searchAvg, hm, hrec]

theorem searchAvg_append_no_A {pre r : List Char}
    (hpre : ∀ c ∈ pre, c ≠ 'A') :
    searchAvg (pre ++ r) = searchAvg r := by
  induction pre with
  | nil => rfl
  | cons a pre ih =>
    have ha : a ≠ 'A' := hpre a (List.mem_cons_self a pre)
    have hrec := ih fun c hc => hpre c (List.mem_cons_of_mem a hc)
    rw [List.cons_append]
    simp [searchAvg, matchAvgAt_cons_ne ha, hrec]

theorem searchAvg_none_of_no_v {l : List Char} (h : ∀ c ∈ l, c ≠ 'v') :
    searchAvg l = none := by
  induction l with
  | nil => rfl
  | cons a l ih =>
    have hrec := ih fun c hc => h c (List.mem_cons_of_mem a hc)
    have hm : matchAvgAt (a :: l) = none := by
      by_cases ha : a = 'A'
      · subst ha
        cases l with
        | nil => exact matchAvgAt_single
        | cons b l2 => exact matchAvgAt_two_ne (h b (by simp))
      · exact matchAvgAt_cons_ne ha
    simp [searchAvg, hm, hrec]

/-! ### splitLines and findallGrid -/

theorem splitLinesAux_append {l : List Char} :
    ∀ (acc r : List Char), '\n' ∉ l →
      splitLinesAux (l ++ '\n' :: r) acc =
        (acc.reverse ++ l) :: splitLinesAux r [] := by
  induction l with
  | nil =>
    intro acc r _
    simp [splitLinesAux]
  | cons c l ih =>
    intro acc r hnl
    have hc : ¬(c = '\n') := fun h => hnl (by rw [h]; exact List.mem_cons_self _ _)
    rw [List.cons_append]
    rw [show splitLinesAux (c :: (l ++ '\n' :: r)) acc =
        splitLinesAux (l ++ '\n' :: r) (c :: acc) from by
      simp [splitLinesAux, hc]]
    rw [ih (c :: acc) r fun h => hnl (List.mem_cons_of_mem c h)]
    simp

theorem linesBuf_cons (l : List Char) (ls : List (List Char)) :
    linesBuf (l :: ls) = l ++ '\n' :: linesBuf ls := rfl

theorem linesBuf_nil : linesBuf [] = [] := rfl

theorem splitLines_linesBuf_append :
    ∀ (ls : List (List Char)) (t : List Char), (∀ l ∈ ls, '\n' ∉ l) →
      splitLines (linesBuf ls ++ t) = ls ++ splitLines t := by
  intro ls
  induction ls with
  | nil => intro t _; simp [linesBuf]
  | cons l ls ih =>
    intro t hnl
    have h1 : '\n' ∉ l := hnl l (List.mem_cons_self _ _)
    have hsh : linesBuf (l :: ls) ++ t = l ++ '\n' :: (linesBuf ls ++ t) := by
      rw [linesBuf_cons]; simp [List.append_assoc]
    rw [hsh]
    unfold splitLines
    rw [splitLinesAux_append [] _ h1]
    have h2 := ih t fun x hx => hnl x (List.mem_cons_of_mem _ hx)
    unfold splitLines at h2
    rw [h2]
    simp

theorem findallGrid_linesBuf_append (ls : List (List Char)) (t : List Char)
    (hnl : ∀ l ∈ ls, '\n' ∉ l) :
    findallGrid (linesBuf ls ++ t) =
      ls.filter (fun l => (gridLineParse l).isSome) ++ findallGrid t := by
  unfold findallGrid
  rw [splitLines_linesBuf_append ls t hnl, List.filter_append]

theorem findallGrid_nil : findallGrid [] = [] := by decide

/-! ### joinSpace, grid rows -/

theorem joinSpace_eq_catSpace :
    ∀ (t : List Char) (ts : List (List Char)),
      joinSpace (t :: ts) = t ++ catSpace ts := by
  intro t ts
  induction ts generalizing t with
  | nil => simp [joinSpace, catSpace]
  | cons a ts ih =>
    rw [show joinSpace (t :: a :: ts) = t ++ '\x20' :: joinSpace (a :: ts)
      from rfl]
    rw [ih a]
    simp [catSpace]

theorem catSpace_cons (t : List Char) (ts : List (List Char)) :
    catSpace (t :: ts) = '\x20' :: (t ++ catSpace ts) := by
  simp [catSpace]

theorem tailChars_cons (d : Dec) (ds : List Dec) :
    tailChars (d :: ds) = '\x20' :: (decChars d ++ tailChars ds) := by
  simp [tailChars, catSpace]

theorem tailChars_head_not_digit (ds : List Dec) :
    ∀ c, (tailChars ds).head? = some c → isDigitB c = false := by
  intro c hc
  cases ds with
  | nil => simp [tailChars, catSpace] at hc
  | cons d ds =>
    rw [tailChars_cons] at hc
    simp only [List.head?_cons, Option.some.injEq] at hc
    subst hc; decide

theorem rowChars_cons (d : Dec) (ds : List Dec) :
    rowChars (d :: ds) = decChars d ++ tailChars ds := by
  unfold rowChars tailChars
  rw [List.map_cons, joinSpace_eq_catSpace]

theorem gridTail_tailChars : ∀ ds : List Dec,
    gridTail ds.length (tailChars ds) = some (ds.map decVal) := by
  intro ds
  induction ds with
  | nil => rfl
  | cons d ds ih =>
    rw [List.length_cons, tailChars_cons]
    show (if '\x20' = '\x20' then
        match matchDec (decChars d ++ tailChars ds) with
        | some vr => (gridTail ds.length vr.2).map (fun t => vr.1 :: t)
        | none => none
      else none) = some ((d :: ds).map decVal)
    rw [if_pos rfl, matchDec_decChars d _ (tailChars_head_not_digit ds)]
    dsimp only
    rw [ih]
    rfl

theorem gridLineParse_rowChars (ds : List Dec) (h : ds.length = 32) :
    gridLineParse (rowChars ds) = some (ds.map decVal) := by
  cases ds with
  | nil => exact absurd h (by decide)
  | cons d ds2 =>
    unfold gridLineParse
    rw [rowChars_cons, matchDec_decChars d _ (tailChars_head_not_digit ds2)]
    dsimp only
    have h31 : ds2.length = 31 := by simpa using h
    rw [← h31, gridTail_tailChars ds2]
    rfl

theorem gridTail_complete :
    ∀ {n : ℕ} {r : List Char} {vs : List ℚ}, gridTail n r = some vs →
      ∃ ds : List Dec, ds.length = n ∧ r = tailChars ds ∧
        vs = ds.map decVal := by
  intro n
  induction n with
  | zero =>
    intro r vs h
    by_cases hr : r = []
    · subst hr
      have hv : vs = [] := by
        have h0 : gridTail 0 ([] : List Char) = some [] := rfl
        rw [h0] at h
        exact (Option.some.inj h).symm
      exact ⟨[], rfl, by simp [tailChars, catSpace], by simp [hv]⟩
    · exact absurd h (by simp [gridTail, hr])
  | succ n ih =>
    intro r vs h
    cases r with
    | nil => exact absurd h (by simp [gridTail])
    | cons c r2 =>
      by_cases hc : c = '\x20'
      · subst hc
        rw [show gridTail (n + 1) ('\x20' :: r2) =
            (if '\x20' = '\x20' then
              match matchDec r2 with
              | some vr => (gridTail n vr.2).map (fun t => vr.1 :: t)
              | none => none
            else none) from rfl, if_pos rfl] at h
        cases hm : matchDec r2 with
        | none => rw [hm] at h; exact absurd h (by simp)
        | some vr =>
          rw [hm] at h
          dsimp only at h
          cases hg : gridTail n vr.2 with
          | none => rw [hg] at h; exact absurd h (by simp)
          | some vs2 =>
            rw [hg] at h
            have h2 : vr.1 :: vs2 = vs := by simpa using h
            obtain ⟨d, hd1, hd2⟩ :=
              matchDec_complete (show matchDec r2 = some (vr.1, vr.2) by
                rw [hm])
            obtain ⟨ds, he1, he2, he3⟩ := ih hg
            refine ⟨d :: ds, by simp [he1], ?_, ?_⟩
            · rw [tailChars_cons, ← he2, ← hd1]
            · rw [← h2, he3, hd2]
              rfl
      · exact absurd h (by simp [gridTail, hc])

theorem gridLineParse_complete {l : List Char} {vs : List ℚ}
    (h : gridLineParse l = some vs) :
    ∃ ds : List Dec, ds.length = 32 ∧ l = rowChars ds ∧
      vs = ds.map decVal := by
  unfold gridLineParse at h
  cases hm : matchDec l with
  | none => rw [hm] at h; exact absurd h (by simp)
  | some vr =>
    rw [hm] at h
    dsimp only at h
    cases hg : gridTail 31 vr.2 with
    | none => rw [hg] at h; exact absurd h (by simp)
    | some vs2 =>
      rw [hg] at h
      have h2 : vr.1 :: vs2 = vs := by simpa using h
      obtain ⟨d, hd1, hd2⟩ :=
        matchDec_complete (show matchDec l = some (vr.1, vr.2) by rw [hm])
      obtain ⟨ds, he1, he2, he3⟩ := gridTail_complete hg
      refine ⟨d :: ds, by simp [he1], ?_, ?_⟩
      · rw [rowChars_cons, ← he2, ← hd1]
      · rw [← h2, he3, hd2]
        rfl

/-! ### splitWs round trip and float conversion -/

theorem splitWsAux_token_space {l : List Char} :
    ∀ (acc r : List Char), l.all (fun c => !pyWs c) = true →
      (l ≠ [] ∨ acc ≠ []) →
      splitWsAux (l ++ '\x20' :: r) acc =
        (acc.reverse ++ l) :: splitWsAux r [] := by
  induction l with
  | nil =>
    intro acc r _ hne
    have hacc : acc ≠ [] := by
      rcases hne with h | h
      · exact absurd rfl h
      · exact h
    have haccE : acc.isEmpty = false := by
      simpa [List.isEmpty_iff] using hacc
    simp [splitWsAux, (by decide : pyWs '\x20' = true), haccE]
  | cons a l ih =>
    intro acc r hall hne
    simp only [List.all_cons, Bool.and_eq_true] at hall
    have ha : pyWs a = false := by
      have := hall.1
      cases hw : pyWs a
      · rfl
      · rw [hw] at this; exact Bool.noConfusion this
    rw [List.cons_append]
    rw [show splitWsAux (a :: (l ++ '\x20' :: r)) acc =
        splitWsAux (l ++ '\x20' :: r) (a :: acc) from by
      simp [splitWsAux, ha]]
    rw [ih (a :: acc) r hall.2 (Or.inr (by simp))]
    simp

theorem splitWsAux_token_end {l : List Char} :
    ∀ acc : List Char, l.all (fun c => !pyWs c) = true →
      (l ≠ [] ∨ acc ≠ []) →
      splitWsAux l acc = [acc.reverse ++ l] := by
  induction l with
  | nil =>
    intro acc _ hne
    have hacc : acc ≠ [] := by
      rcases hne with h | h
      · exact absurd rfl h
      · exact h
    have haccE : acc.isEmpty = false := by
      simpa [List.isEmpty_iff] using hacc
    simp [splitWsAux, haccE]
  | cons a l ih =>
    intro acc hall hne
    simp only [List.all_cons, Bool.and_eq_true] at hall
    have ha : pyWs a = false := by
      have := hall.1
      cases hw : pyWs a
      · rfl
      · rw [hw] at this; exact Bool.noConfusion this
    rw [show splitWsAux (a :: l) acc = splitWsAux l (a :: acc) from by
      simp [splitWsAux, ha]]
    rw [ih (a :: acc) hall.2 (Or.inr (by simp))]
    simp

theorem splitWs_joinSpace :
    ∀ ts : List (List Char),
      (∀ t ∈ ts, t ≠ [] ∧ t.all (fun c => !pyWs c) = true) →
      splitWs (joinSpace ts) = ts := by
  intro ts
  induction ts with
  | nil => intro; rfl
  | cons t ts ih =>
    intro h
    have ht := h t (List.mem_cons_self _ _)
    cases ts with
    | nil =>
      unfold splitWs
      rw [show joinSpace [t] = t from rfl,
        splitWsAux_token_end [] ht.2 (Or.inl ht.1)]
      simp
    | cons t2 ts2 =>
      unfold splitWs
      rw [show joinSpace (t :: t2 :: ts2) = t ++ '\x20' :: joinSpace (t2 :: ts2)
        from rfl]
      rw [splitWsAux_token_space [] _ ht.2 (Or.inl ht.1)]
      have h2 := ih fun x hx => h x (List.mem_cons_of_mem _ hx)
      unfold splitWs at h2
      rw [h2]
      simp

theorem decChars_no_ws (d : Dec) :
    (decChars d).all (fun c => !pyWs c) = true := by
  rw [List.all_eq_true]
  intro c hc
  rcases mem_decChars hc with h | h | h
  · subst h; decide
  · subst h; decide
  · simp [pyWs_eq_false_of_digit h]

theorem pyFloatMag_digits (ip fp : List Char) (hipne : ip ≠ [])
    (hipd : ip.all isDigitB = true) (_hfpne : fp ≠ [])
    (hfpd : fp.all isDigitB = true) :
    pyFloatMag (ip ++ '.' :: fp) = some (magVal ip fp) := by
  have hdot : ∀ x, (('.' :: fp) : List Char).head? = some x →
      isDigitB x = false := by
    intro x hx
    simp only [List.head?_cons, Option.some.injEq] at hx
    subst hx; decide
  have h1 := takeWhile_append_of_all ip ('.' :: fp) hipd hdot
  unfold pyFloatMag
  rw [h1.1, h1.2]
  dsimp only
  rw [if_pos rfl]
  have hipE : ip.isEmpty = false := by simpa [List.isEmpty_iff] using hipne
  simp [hfpd, hipE]

theorem pyFloat_decChars (d : Dec) : pyFloat (decChars d) = some (decVal d) := by
  obtain ⟨neg, ip, fp, hip, hfp⟩ := d
  obtain ⟨i0, ip', hipeq⟩ : ∃ i0 ip', ip = i0 :: ip' := by
    cases hip0 : ip with
    | nil => exact absurd hip0 hip.1
    | cons a b => exact ⟨a, b, rfl⟩
  have hi0 : isDigitB i0 = true := by
    have h := hip.2; rw [hipeq] at h
    simp only [List.all_cons, Bool.and_eq_true] at h
    exact h.1
  cases neg with
  | true =>
    have hsh : decChars ⟨true, ip, fp, hip, hfp⟩ =
        '-' :: (ip ++ '.' :: fp) := by simp [decChars]
    rw [hsh]
    show (if '-' = '-' then (pyFloatMag (ip ++ '.' :: fp)).map (fun q => -q)
      else if '-' = '+' then pyFloatMag (ip ++ '.' :: fp)
      else pyFloatMag ('-' :: (ip ++ '.' :: fp))) = _
    rw [if_pos rfl,
      pyFloatMag_digits ip fp hip.1 hip.2 hfp.1 hfp.2]
    rfl
  | false =>
    have hsh : decChars ⟨false, ip, fp, hip, hfp⟩ = ip ++ '.' :: fp := by
      simp [decChars]
    rw [hsh]
    have hemb : pyFloat (ip ++ '.' :: fp) = pyFloatMag (ip ++ '.' :: fp) := by
      rw [hipeq, List.cons_append]
      show (if i0 = '-' then _ else if i0 = '+' then _ else
        pyFloatMag (i0 :: (ip' ++ '.' :: fp))) = _
      rw [if_neg (ne_of_digit_of_not hi0 (by decide)),
        if_neg (ne_of_digit_of_not hi0 (by decide))]
    rw [hemb, pyFloatMag_digits ip fp hip.1 hip.2 hfp.1 hfp.2]
    rfl

theorem mapM_pyFloat_decChars : ∀ ds : List Dec,
    (ds.map decChars).mapM pyFloat = some (ds.map decVal) := by
  intro ds
  induction ds with
  | nil => rfl
  | cons d ds ih =>
    rw [List.map_cons, List.map_cons, List.mapM_cons, pyFloat_decChars, ih]
    rfl

theorem rowFloats_rowChars (ds : List Dec) :
    rowFloats (rowChars ds) = some (ds.map decVal) := by
  unfold rowFloats rowChars
  rw [splitWs_joinSpace (ds.map decChars) ?htok]
  · exact mapM_pyFloat_decChars ds
  case htok =>
    intro t ht
    rcases List.mem_map.1 ht with ⟨d, -, rfl⟩
    exact ⟨decChars_ne_nil d, decChars_no_ws d⟩

/-! ### The grid-filling loop -/

theorem applyRowsAux_wf :
    ∀ (ls : List (List Char)) (px : List (List ℚ)) (i : ℕ),
      pixelsWf px → pixelsWf (applyRowsAux px i ls).1 := by
  intro ls
  induction ls with
  | nil => intro px i h; exact h
  | cons l ls ih =>
    intro px i h
    show pixelsWf (match rowFloats l with
      | none => (px, false)
      | some vals =>
        applyRowsAux (if vals.length = 32 then px.set i vals else px)
          (i + 1) ls).1
    cases hr : rowFloats l with
    | none => exact h
    | some vals =>
      dsimp only
      by_cases hv : vals.length = 32
      · rw [if_pos hv]
        apply ih
        refine ⟨by rw [List.length_set]; exact h.1, ?_⟩
        intro r hr2
        rcases List.mem_or_eq_of_mem_set hr2 with h2 | h2
        · exact h.2 r h2
        · rw [h2]; exact hv
      · rw [if_neg hv]
        exact ih px (i + 1) h

theorem applyRowsAux_ok :
    ∀ (ls : List (List Char)) (px : List (List ℚ)) (i : ℕ),
      (∀ l ∈ ls, (rowFloats l).isSome = true) →
      (applyRowsAux px i ls).2 = true := by
  intro ls
  induction ls with
  | nil => intro px i _; rfl
  | cons l ls ih =>
    intro px i h
    show (match rowFloats l with
      | none => (px, false)
      | some vals =>
        applyRowsAux (if vals.length = 32 then px.set i vals else px)
          (i + 1) ls).2 = true
    cases hr : rowFloats l with
    | none =>
      have := h l (List.mem_cons_self _ _)
      rw [hr] at this
      exact Bool.noConfusion this
    | some vals =>
      dsimp only
      exact ih _ (i + 1) fun x hx => h x (List.mem_cons_of_mem _ hx)

theorem applyRowsAux_rows :
    ∀ (rows : List (List Dec)) (px : List (List ℚ)) (i : ℕ),
      i + rows.length = px.length → (∀ r ∈ rows, r.length = 32) →
      applyRowsAux px i (rows.map rowChars) =
        (px.take i ++ rows.map (fun r => r.map decVal), true) := by
  intro rows
  induction rows with
  | nil =>
    intro px i hlen _
    have hi : px.length ≤ i := by simp at hlen; omega
    simp [applyRowsAux, List.take_of_length_le hi]
  | cons r rows ih =>
    intro px i hlen hr32
    have hrf : rowFloats (rowChars r) = some (r.map decVal) :=
      rowFloats_rowChars r
    rw [List.map_cons]
    show (match rowFloats (rowChars r) with
      | none => (px, false)
      | some vals =>
        applyRowsAux (if vals.length = 32 then px.set i vals else px)
          (i + 1) (rows.map rowChars)) =
      (px.take i ++ (r :: rows).map (fun r => r.map decVal), true)
    rw [hrf]
    dsimp only
    have hv : (r.map decVal).length = 32 := by
      simp [hr32 r (List.mem_cons_self _ _)]
    rw [if_pos hv]
    have hi : i < px.length := by
      rw [List.length_cons] at hlen; omega
    rw [ih (px.set i (r.map decVal)) (i + 1)
      (by rw [List.length_set]; rw [List.length_cons] at hlen; omega)
      fun x hx => hr32 x (List.mem_cons_of_mem _ hx)]
    have hset : px.set i (r.map decVal) =
        px.take i ++ (r.map decVal) :: px.drop (i + 1) := by
      rw [List.set_eq_take_append_cons_drop, if_pos hi]
    have htk : (px.set i (r.map decVal)).take (i + 1) =
        px.take i ++ [r.map decVal] := by
      rw [hset]
      have hlen2 : (px.take i).length = i := by
        rw [List.length_take]; omega
      rw [show i + 1 = (px.take i).length + 1 by omega,
        List.take_append 1]
      rfl
    rw [htk]
    simp

theorem applyRows_rows (rows : List (List Dec)) (px : List (List ℚ))
    (hlen : rows.length = 32) (hpx : px.length = 32)
    (hr32 : ∀ r ∈ rows, r.length = 32) :
    applyRows px (rows.map rowChars) =
      (rows.map (fun r => r.map decVal), true) := by
  unfold applyRows
  rw [List.take_of_length_le (by simp [hlen])]
  have h := applyRowsAux_rows rows px 0 (by omega) hr32
  simpa using h

/-! ### Shapes of well-formed lines -/

theorem getLast?_some_mem {l : List Char} {c : Char}
    (h : l.getLast? = some c) : c ∈ l := by
  induction l with
  | nil => exact absurd h (by simp)
  | cons a l ih =>
    cases l with
    | nil =>
      simp only [List.getLast?_singleton, Option.some.injEq] at h
      rw [h]; exact List.mem_cons_self _ _
    | cons b l2 =>
      rw [List.getLast?_cons_cons] at h
      exact List.mem_cons_of_mem a (ih h)

theorem head?_some_not_ws_of_digit {l : List Char} (hall : l.all isDigitB = true) :
    ∀ c, l.getLast? = some c → isDigitB c = true := by
  intro c hc
  rw [List.all_eq_true] at hall
  exact hall c (getLast?_some_mem hc)

theorem decChars_head_not_ws (d : Dec) :
    ∀ c, (decChars d).head? = some c → pyWs c = false := by
  intro c hc
  obtain ⟨neg, ip, fp, hip, hfp⟩ := d
  obtain ⟨i0, ip', hipeq⟩ : ∃ i0 ip', ip = i0 :: ip' := by
    cases hip0 : ip with
    | nil => exact absurd hip0 hip.1
    | cons a b => exact ⟨a, b, rfl⟩
  have hi0 : isDigitB i0 = true := by
    have h := hip.2; rw [hipeq] at h
    simp only [List.all_cons, Bool.and_eq_true] at h
    exact h.1
  cases neg with
  | true =>
    have : decChars ⟨true, ip, fp, hip, hfp⟩ = '-' :: (ip ++ '.' :: fp) := by
      simp [decChars]
    rw [this] at hc
    simp only [List.head?_cons, Option.some.injEq] at hc
    subst hc; decide
  | false =>
    have : decChars ⟨false, ip, fp, hip, hfp⟩ =
        i0 :: (ip' ++ '.' :: fp) := by
      simp [decChars, hipeq]
    rw [this] at hc
    simp only [List.head?_cons, Option.some.injEq] at hc
    subst hc
    exact pyWs_eq_false_of_digit hi0

theorem decChars_getLast_digit (d : Dec) :
    ∀ c, (decChars d).getLast? = some c → isDigitB c = true := by
  intro c hc
  obtain ⟨f0, fp', hfpeq⟩ : ∃ f0 fp', d.fp = f0 :: fp' := by
    cases hfp0 : d.fp with
    | nil => exact absurd hfp0 d.hfp.1
    | cons a b => exact ⟨a, b, rfl⟩
  have hsh : decChars d =
      ((if d.neg then ['-'] else []) ++ d.ip) ++ ('.' :: d.fp) := by
    simp [decChars]
  rw [hsh, List.getLast?_append_of_ne_nil _ (by simp)] at hc
  rw [hfpeq, List.getLast?_cons_cons] at hc
  have hmem : c ∈ f0 :: fp' := getLast?_some_mem hc
  have hall := d.hfp.2
  rw [hfpeq, List.all_eq_true] at hall
  exact hall c hmem

theorem tailChars_ne_nil {ds : List Dec} (h : ds ≠ []) : tailChars ds ≠ [] := by
  cases ds with
  | nil => exact absurd rfl h
  | cons d ds => rw [tailChars_cons]; exact List.cons_ne_nil _ _

theorem tailChars_getLast_digit :
    ∀ (ds : List Dec), ds ≠ [] →
      ∀ c, (tailChars ds).getLast? = some c → isDigitB c = true := by
  intro ds
  induction ds with
  | nil => intro h; exact absurd rfl h
  | cons e es ih =>
    intro _ c hc
    rw [tailChars_cons] at hc
    cases hes : es with
    | nil =>
      rw [hes] at hc
      have : tailChars ([] : List Dec) = [] := rfl
      rw [this, List.append_nil] at hc
      rw [show ('\x20' :: decChars e) = ['\x20'] ++ decChars e from rfl,
        List.getLast?_append_of_ne_nil _ (decChars_ne_nil e)] at hc
      exact decChars_getLast_digit e c hc
    | cons f fs =>
      rw [show ('\x20' :: (decChars e ++ tailChars es)) =
        ('\x20' :: decChars e) ++ tailChars es from by simp] at hc
      rw [List.getLast?_append_of_ne_nil _
        (by rw [hes]; exact tailChars_ne_nil (by simp))] at hc
      exact ih (by simp [hes]) c hc

theorem rowChars_head_not_ws {ds : List Dec} (h : ds ≠ []) :
    ∀ c, (rowChars ds).head? = some c → pyWs c = false := by
  intro c hc
  cases ds with
  | nil => exact absurd rfl h
  | cons d ds2 =>
    rw [rowChars_cons, List.head?_append] at hc
    cases hh : (decChars d).head? with
    | none =>
      exact absurd (List.head?_eq_none_iff.1 hh) (decChars_ne_nil d)
    | some c0 =>
      rw [hh] at hc
      simp only [Option.or_some, Option.some.injEq] at hc
      subst hc
      exact decChars_head_not_ws d c0 hh

theorem rowChars_getLast_digit {ds : List Dec} (h : ds ≠ []) :
    ∀ c, (rowChars ds).getLast? = some c → isDigitB c = true := by
  intro c hc
  cases ds with
  | nil => exact absurd rfl h
  | cons d ds2 =>
    cases hds2 : ds2 with
    | nil =>
      rw [hds2] at hc
      have : rowChars [d] = decChars d := rfl
      rw [this] at hc
      exact decChars_getLast_digit d c hc
    | cons e es =>
      rw [rowChars_cons, List.getLast?_append_of_ne_nil _
        (by rw [hds2]; exact tailChars_ne_nil (by simp))] at hc
      rw [hds2] at hc
      exact tailChars_getLast_digit (e :: es) (by simp) c hc

theorem stripChars_rowChars {ds : List Dec} (h : ds ≠ []) :
    stripChars (rowChars ds) = rowChars ds := by
  apply stripChars_eq_self
  · exact rowChars_head_not_ws h
  · intro c hc
    exact pyWs_eq_false_of_digit (rowChars_getLast_digit h c hc)

theorem mem_joinSpace {c : Char} :
    ∀ {ts : List (List Char)}, c ∈ joinSpace ts →
      c = '\x20' ∨ ∃ t ∈ ts, c ∈ t := by
  intro ts
  induction ts with
  | nil => intro h; exact absurd h (by simp [joinSpace])
  | cons t ts ih =>
    intro h
    cases ts with
    | nil =>
      rw [show joinSpace [t] = t from rfl] at h
      exact Or.inr ⟨t, List.mem_cons_self _ _, h⟩
    | cons t2 ts2 =>
      rw [show joinSpace (t :: t2 :: ts2) =
        t ++ '\x20' :: joinSpace (t2 :: ts2) from rfl] at h
      rcases List.mem_append.1 h with h | h
      · exact Or.inr ⟨t, List.mem_cons_self _ _, h⟩
      · rcases List.mem_cons.1 h with h | h
        · exact Or.inl h
        · rcases ih h with h | ⟨t3, ht3, hc3⟩
          · exact Or.inl h
          · exact Or.inr ⟨t3, List.mem_cons_of_mem _ ht3, hc3⟩

theorem mem_rowChars {c : Char} {ds : List Dec} (h : c ∈ rowChars ds) :
    c = '\x20' ∨ c = '-' ∨ c = '.' ∨ isDigitB c = true := by
  unfold rowChars at h
  rcases mem_joinSpace h with h | ⟨t, ht, hc⟩
  · exact Or.inl h
  · rcases List.mem_map.1 ht with ⟨d, -, rfl⟩
    rcases mem_decChars hc with h | h | h
    · exact Or.inr (Or.inl h)
    · exact Or.inr (Or.inr (Or.inl h))
    · exact Or.inr (Or.inr (Or.inr h))

theorem rowChars_no_nl {ds : List Dec} : '\n' ∉ rowChars ds := by
  intro h
  rcases mem_rowChars h with h | h | h | h
  · exact absurd h (by decide)
  · exact absurd h (by decide)
  · exact absurd h (by decide)
  · exact absurd h (by decide)

theorem mem_linesBuf {c : Char} :
    ∀ {ls : List (List Char)}, c ∈ linesBuf ls →
      c = '\n' ∨ ∃ l ∈ ls, c ∈ l := by
  intro ls
  induction ls with
  | nil => intro h; exact absurd h (by simp [linesBuf])
  | cons l ls ih =>
    intro h
    rw [linesBuf_cons] at h
    rcases List.mem_append.1 h with h | h
    · exact Or.inr ⟨l, List.mem_cons_self _ _, h⟩
    · rcases List.mem_cons.1 h with h | h
      · exact Or.inl h
      · rcases ih h with h | ⟨l2, hl2, hc2⟩
        · exact Or.inl h
        · exact Or.inr ⟨l2, List.mem_cons_of_mem _ hl2, hc2⟩

theorem linesBuf_append (a b : List (List Char)) :
    linesBuf (a ++ b) = linesBuf a ++ linesBuf b := by
  induction a with
  | nil => rfl
  | cons l a ih => rw [List.cons_append, linesBuf_cons, linesBuf_cons, ih]; simp

theorem matchDec_cons_none {c : Char} {l : List Char}
    (h1 : isDigitB c = false) (h2 : c ≠ '-') :
    matchDec (c :: l) = none := by
  unfold matchDec
  rw [splitSign_cons_ne h2]
  unfold matchDecMag
  rw [show List.dropWhile isDigitB (c :: l) = c :: l from by
    simp [List.dropWhile_cons, h1]]
  dsimp only
  by_cases hc : c = '.'
  · rw [if_pos hc]
    rw [show List.takeWhile isDigitB (c :: l) = [] from by
      simp [List.takeWhile_cons, h1]]
    simp
  · rw [if_neg hc]

theorem gridLineParse_cons_none {c : Char} {l : List Char}
    (h1 : isDigitB c = false) (h2 : c ≠ '-') :
    gridLineParse (c :: l) = none := by
  unfold gridLineParse
  rw [matchDec_cons_none h1 h2]

/-! ### The scalar lines -/

theorem mem_ptatLineC {c : Char} {d : Dec} {h1 h2 : Char}
    (h : c ∈ ptatLineC d h1 h2) :
    c ∈ ptatPre ∨ c ∈ decChars d ∨ c ∈ ptatMid ∨ c = h1 ∨ c = h2 := by
  unfold ptatLineC at h
  rcases List.mem_append.1 h with h | h
  · rcases List.mem_append.1 h with h | h
    · rcases List.mem_append.1 h with h | h
      · exact Or.inl h
      · exact Or.inr (Or.inl h)
    · exact Or.inr (Or.inr (Or.inl h))
  · rcases List.mem_cons.1 h with h | h
    · exact Or.inr (Or.inr (Or.inr (Or.inl h)))
    · rcases List.mem_cons.1 h with h | h
      · exact Or.inr (Or.inr (Or.inr (Or.inr h)))
      · exact absurd h (by simp)

theorem mem_avgLineC {c : Char} {d : Dec} (h : c ∈ avgLineC d) :
    c ∈ avgPre ∨ c ∈ decChars d ∨ c ∈ avgSuf := by
  unfold avgLineC at h
  rcases List.mem_append.1 h with h | h
  · rcases List.mem_append.1 h with h | h
    · exact Or.inl h
    · exact Or.inr (Or.inl h)
  · exact Or.inr (Or.inr h)

theorem ptatLineC_no_nl {d : Dec} {h1 h2 : Char}
    (hh1 : isHexB h1 = true) (hh2 : isHexB h2 = true) :
    '\n' ∉ ptatLineC d h1 h2 := by
  intro h
  rcases mem_ptatLineC h with h | h | h | h | h
  · exact absurd h (by decide)
  · rcases mem_decChars h with h | h | h <;> exact absurd h (by decide)
  · exact absurd h (by decide)
  · rw [← h] at hh1; exact absurd hh1 (by decide)
  · rw [← h] at hh2; exact absurd hh2 (by decide)

theorem ptatLineC_no_v {d : Dec} {h1 h2 : Char}
    (hh1 : isHexB h1 = true) (hh2 : isHexB h2 = true) :
    ∀ c ∈ ptatLineC d h1 h2, c ≠ 'v' := by
  intro c hc he
  subst he
  rcases mem_ptatLineC hc with h | h | h | h | h
  · exact absurd h (by decide)
  · rcases mem_decChars h with h | h | h <;> exact absurd h (by decide)
  · exact absurd h (by decide)
  · rw [← h] at hh1; exact absurd hh1 (by decide)
  · rw [← h] at hh2; exact absurd hh2 (by decide)

theorem avgLineC_no_nl {d : Dec} : '\n' ∉ avgLineC d := by
  intro h
  rcases mem_avgLineC h with h | h | h
  · exact absurd h (by decide)
  · rcases mem_decChars h with h | h | h <;> exact absurd h (by decide)
  · exact absurd h (by decide)

theorem ptatLineC_head (d : Dec) (h1 h2 : Char) :
    (ptatLineC d h1 h2).head? = some 'P' := rfl

theorem avgLineC_head (d : Dec) : (avgLineC d).head? = some 'A' := rfl

theorem ptatLineC_getLast (d : Dec) (h1 h2 : Char) :
    (ptatLineC d h1 h2).getLast? = some h2 := by
  unfold ptatLineC
  rw [show ptatPre ++ decChars d ++ ptatMid ++ [h1, h2] =
    (ptatPre ++ decChars d ++ ptatMid ++ [h1]) ++ [h2] from by simp]
  exact List.getLast?_concat _

theorem avgLineC_getLast (d : Dec) : (avgLineC d).getLast? = some 'C' := by
  unfold avgLineC
  rw [show avgPre ++ decChars d ++ avgSuf =
    (avgPre ++ decChars d ++ ['\x20']) ++ ['C'] from by simp [avgSuf]]
  exact List.getLast?_concat _

theorem stripChars_ptatLineC {d : Dec} {h1 h2 : Char}
    (hh2 : isHexB h2 = true) :
    stripChars (ptatLineC d h1 h2) = ptatLineC d h1 h2 := by
  apply stripChars_eq_self
  · intro c hc
    rw [ptatLineC_head] at hc
    simp only [Option.some.injEq] at hc
    subst hc; decide
  · intro c hc
    rw [ptatLineC_getLast] at hc
    simp only [Option.some.injEq] at hc
    subst hc
    exact pyWs_eq_false_of_hex hh2

theorem stripChars_avgLineC (d : Dec) :
    stripChars (avgLineC d) = avgLineC d := by
  apply stripChars_eq_self
  · intro c hc
    rw [avgLineC_head] at hc
    simp only [Option.some.injEq] at hc
    subst hc; decide
  · intro c hc
    rw [avgLineC_getLast] at hc
    simp only [Option.some.injEq] at hc
    subst hc; decide

theorem ptatLineC_ne_nil (d : Dec) (h1 h2 : Char) :
    ptatLineC d h1 h2 ≠ [] := by
  intro h
  have := congrArg List.head? h
  rw [ptatLineC_head] at this
  exact Option.noConfusion this

theorem avgLineC_ne_nil (d : Dec) : avgLineC d ≠ [] := by
  intro h
  have := congrArg List.head? h
  rw [avgLineC_head] at this
  exact Option.noConfusion this

theorem rowChars_ne_nil {ds : List Dec} (h : ds ≠ []) : rowChars ds ≠ [] := by
  cases ds with
  | nil => exact absurd rfl h
  | cons d ds2 =>
    rw [rowChars_cons]
    intro he
    exact decChars_ne_nil d (List.append_eq_nil.1 he).1

theorem gridLineParse_ptatLineC (d : Dec) (h1 h2 : Char) :
    gridLineParse (ptatLineC d h1 h2) = none := by
  rw [show ptatLineC d h1 h2 = 'P' ::
    (['T', 'A', 'T', ':', '\x20'] ++ decChars d ++ ptatMid ++ [h1, h2])
    from by simp [ptatLineC, ptatPre]]
  exact gridLineParse_cons_none (by decide) (by decide)

theorem gridLineParse_avgLineC (d : Dec) :
    gridLineParse (avgLineC d) = none := by
  rw [show avgLineC d = 'A' ::
    (['v', 'g', '\x20', 'P', 'i', 'x', 'e', 'l', '\x20',
      'T', 'e', 'm', 'p', ':', '\x20'] ++ decChars d ++ avgSuf)
    from by simp [avgLineC, avgPre]]
  exact gridLineParse_cons_none (by decide) (by decide)

theorem gridLineParse_nil : gridLineParse [] = none := rfl

/-! ### The junk line -/

theorem junkLine_eq : junkLine = 'x' :: List.replicate 10000 'x' := by
  unfold junkLine
  rw [show (10001 : ℕ) = 10000 + 1 from rfl, List.replicate_succ]

theorem mem_junkLine {c : Char} (h : c ∈ junkLine) : c = 'x' := by
  unfold junkLine at h
  exact (List.mem_replicate.1 h).2

theorem junkLine_no_nl : '\n' ∉ junkLine := by
  intro h
  exact absurd (mem_junkLine h) (by decide)

theorem stripChars_junkLine : stripChars junkLine = junkLine := by
  apply stripChars_eq_self
  · intro c hc
    rw [junkLine_eq] at hc
    simp only [List.head?_cons, Option.some.injEq] at hc
    subst hc; decide
  · intro c hc
    rw [show junkLine = List.replicate 10000 'x' ++ ['x'] from by
      unfold junkLine
      rw [show (10001 : ℕ) = 10000 + 1 from rfl, List.replicate_succ']] at hc
    rw [List.getLast?_concat] at hc
    simp only [Option.some.injEq] at hc
    subst hc; decide

theorem gridLineParse_junkLine : gridLineParse junkLine = none := by
  rw [junkLine_eq]
  exact gridLineParse_cons_none (by decide) (by decide)

theorem junkLine_ne_nil : junkLine ≠ [] := by
  rw [junkLine_eq]
  exact List.cons_ne_nil _ _

theorem junkLine_length : junkLine.length = 10001 := by
  unfold junkLine
  rw [List.length_replicate]

/-! ### One pass of the loop -/

theorem step_empty_line {st : PSt} {raw : List Char}
    (h : stripChars raw = []) : step st raw = .cont st := by
  unfold step
  rw [h]
  simp

theorem step_eq {st : PSt} {raw : List Char} (h : stripChars raw ≠ []) :
    step st raw =
      (if ((updPtat (bufAppend st (stripChars raw)) st.ptat).isSome &&
          (updAvg (bufAppend st (stripChars raw)) st.avg_temp).isSome) = true
       then
        if (findallGrid (bufAppend st (stripChars raw))).length ≥ 32 then
          gridAttempt (updPtat (bufAppend st (stripChars raw)) st.ptat)
            (updAvg (bufAppend st (stripChars raw)) st.avg_temp)
            st.pixels (findallGrid (bufAppend st (stripChars raw)))
        else .cont (overflowCheck
          (updPtat (bufAppend st (stripChars raw)) st.ptat)
          (updAvg (bufAppend st (stripChars raw)) st.avg_temp)
          st.pixels (bufAppend st (stripChars raw)))
       else .cont (overflowCheck
        (updPtat (bufAppend st (stripChars raw)) st.ptat)
        (updAvg (bufAppend st (stripChars raw)) st.avg_temp)
        st.pixels (bufAppend st (stripChars raw)))) := by
  unfold step
  dsimp only
  rw [if_neg h]

theorem updPtat_isSome {buf : List Char} {o : Option ℚ}
    (h : o.isSome = true) : (updPtat buf o).isSome = true := by
  unfold updPtat
  cases searchPtat buf
  · exact h
  · rfl

theorem updAvg_isSome {buf : List Char} {o : Option ℚ}
    (h : o.isSome = true) : (updAvg buf o).isSome = true := by
  unfold updAvg
  cases searchAvg buf
  · exact h
  · rfl

theorem updPtat_of_search_none {buf : List Char} {o : Option ℚ}
    (h : searchPtat buf = none) : updPtat buf o = o := by
  unfold updPtat; rw [h]

theorem updPtat_of_search_some {buf : List Char} {o : Option ℚ} {v : ℚ}
    (h : searchPtat buf = some v) : updPtat buf o = some v := by
  unfold updPtat; rw [h]

theorem updAvg_of_search_none {buf : List Char} {o : Option ℚ}
    (h : searchAvg buf = none) : updAvg buf o = o := by
  unfold updAvg; rw [h]

theorem updAvg_of_search_some {buf : List Char} {o : Option ℚ} {v : ℚ}
    (h : searchAvg buf = some v) : updAvg buf o = some v := by
  unfold updAvg; rw [h]

theorem bufAppend_length (st : PSt) (l : List Char) :
    (bufAppend st l).length = st.buffer.length + l.length + 1 := by
  unfold bufAppend
  simp [List.length_append]
  omega

theorem step_done_shape {st : PSt} {raw : List Char}
    {r : Option ℚ × Option ℚ × Option (List (List ℚ))}
    (h : step st raw = .done r) :
    ∃ p a px, r = (some p, some a, some px) := by
  by_cases hl : stripChars raw = []
  · rw [step_empty_line hl] at h; exact StepRes.noConfusion h
  · rw [step_eq hl] at h
    by_cases hg : ((updPtat (bufAppend st (stripChars raw)) st.ptat).isSome &&
        (updAvg (bufAppend st (stripChars raw)) st.avg_temp).isSome) = true
    · rw [if_pos hg] at h
      by_cases hlen :
          (findallGrid (bufAppend st (stripChars raw))).length ≥ 32
      · rw [if_pos hlen] at h
        unfold gridAttempt at h
        dsimp only at h
        by_cases hok : (applyRows st.pixels
            (findallGrid (bufAppend st (stripChars raw)))).2 = true
        · rw [if_pos hok] at h
          simp only [StepRes.done.injEq] at h
          simp only [Bool.and_eq_true, Option.isSome_iff_exists] at hg
          obtain ⟨⟨vp, hvp⟩, va, hva⟩ := hg
          refine ⟨vp, va, (applyRows st.pixels
            (findallGrid (bufAppend st (stripChars raw)))).1, ?_⟩
          rw [← h, hvp, hva]
        · rw [if_neg hok] at h; exact StepRes.noConfusion h
      · rw [if_neg hlen] at h; exact StepRes.noConfusion h
    · rw [if_neg hg] at h; exact StepRes.noConfusion h

theorem overflowCheck_fields (p a : Option ℚ) (px : List (List ℚ))
    (buf : List Char) :
    (overflowCheck p a px buf).ptat = p ∧
    (overflowCheck p a px buf).avg_temp = a ∧
    (overflowCheck p a px buf).pixels = px ∧
    ((overflowCheck p a px buf).buffer = [] ∨
      ((overflowCheck p a px buf).buffer = buf ∧ ¬buf.length > 10000)) := by
  unfold overflowCheck
  by_cases h : buf.length > 10000
  · rw [if_pos h]
    exact ⟨rfl, rfl, rfl, Or.inl rfl⟩
  · rw [if_neg h]
    exact ⟨rfl, rfl, rfl, Or.inr ⟨rfl, h⟩⟩

theorem step_cont_cases {st : PSt} {raw : List Char} {st2 : PSt}
    (h : step st raw = .cont st2) :
    (stripChars raw = [] ∧ st2 = st) ∨
      (stripChars raw ≠ [] ∧
        st2.ptat = updPtat (bufAppend st (stripChars raw)) st.ptat ∧
        st2.avg_temp = updAvg (bufAppend st (stripChars raw)) st.avg_temp ∧
        (st2.buffer = [] ∨ (st2.buffer = bufAppend st (stripChars raw) ∧
          ¬(bufAppend st (stripChars raw)).length > 10000)) ∧
        (st2.pixels = st.pixels ∨
          st2.pixels = (applyRows st.pixels
            (findallGrid (bufAppend st (stripChars raw)))).1)) := by
  by_cases hl : stripChars raw = []
  · rw [step_empty_line hl] at h
    exact Or.inl ⟨hl, (StepRes.cont.inj h).symm⟩
  · right
    rw [step_eq hl] at h
    refine ⟨hl, ?_⟩
    by_cases hg : ((updPtat (bufAppend st (stripChars raw)) st.ptat).isSome &&
        (updAvg (bufAppend st (stripChars raw)) st.avg_temp).isSome) = true
    · rw [if_pos hg] at h
      by_cases hlen :
          (findallGrid (bufAppend st (stripChars raw))).length ≥ 32
      · rw [if_pos hlen] at h
        unfold gridAttempt at h
        dsimp only at h
        by_cases hok : (applyRows st.pixels
            (findallGrid (bufAppend st (stripChars raw)))).2 = true
        · rw [if_pos hok] at h; exact StepRes.noConfusion h
        · rw [if_neg hok] at h
          have h2 := (StepRes.cont.inj h).symm
          subst h2
          exact ⟨rfl, rfl, Or.inl rfl, Or.inr rfl⟩
      · rw [if_neg hlen] at h
        have h2 := (StepRes.cont.inj h).symm
        subst h2
        obtain ⟨f1, f2, f3, f4⟩ := overflowCheck_fields
          (updPtat (bufAppend st (stripChars raw)) st.ptat)
          (updAvg (bufAppend st (stripChars raw)) st.avg_temp)
          st.pixels (bufAppend st (stripChars raw))
        exact ⟨f1, f2, f4, Or.inl f3⟩
    · rw [if_neg hg] at h
      have h2 := (StepRes.cont.inj h).symm
      subst h2
      obtain ⟨f1, f2, f3, f4⟩ := overflowCheck_fields
        (updPtat (bufAppend st (stripChars raw)) st.ptat)
        (updAvg (bufAppend st (stripChars raw)) st.avg_temp)
        st.pixels (bufAppend st (stripChars raw))
      exact ⟨f1, f2, f4, Or.inl f3⟩

theorem step_cont_scalars {st : PSt} {raw : List Char} {st2 : PSt}
    (h : step st raw = .cont st2) :
    (st.ptat.isSome = true → st2.ptat.isSome = true) ∧
    (st.avg_temp.isSome = true → st2.avg_temp.isSome = true) := by
  rcases step_cont_cases h with ⟨-, h2⟩ | ⟨-, hp, ha, -, -⟩
  · subst h2; exact ⟨id, id⟩
  · exact ⟨fun hs => by rw [hp]; exact updPtat_isSome hs,
      fun hs => by rw [ha]; exact updAvg_isSome hs⟩

theorem step_cont_buffer {st : PSt} {raw : List Char} {st2 : PSt}
    (h : step st raw = .cont st2) (hb : st.buffer.length ≤ 10000) :
    st2.buffer.length ≤ 10000 ∧
      (stripChars raw ≠ [] ∧
        st.buffer.length + (stripChars raw).length + 1 > 10000 →
        st2.buffer = []) := by
  rcases step_cont_cases h with ⟨hl, h2⟩ | ⟨hl, -, -, hbuf, -⟩
  · subst h2
    exact ⟨hb, fun hx => absurd hl hx.1⟩
  · rcases hbuf with hbuf | ⟨hbuf, hlt⟩
    · exact ⟨by rw [hbuf]; simp, fun _ => hbuf⟩
    · rw [bufAppend_length] at hlt
      refine ⟨by rw [hbuf, bufAppend_length]; omega, ?_⟩
      intro hx
      exact absurd hx.2 hlt

theorem rowFloats_of_matched {l : List Char}
    (h : (gridLineParse l).isSome = true) :
    ∃ vs, rowFloats l = some vs ∧ vs.length = 32 := by
  rw [Option.isSome_iff_exists] at h
  obtain ⟨vs0, h0⟩ := h
  obtain ⟨ds, hds, hrow, -⟩ := gridLineParse_complete h0
  refine ⟨ds.map decVal, ?_, by simp [hds]⟩
  rw [hrow]
  exact rowFloats_rowChars ds

theorem mem_findallGrid {l buf : List Char} (h : l ∈ findallGrid buf) :
    (gridLineParse l).isSome = true := by
  unfold findallGrid at h
  exact (List.mem_filter.1 h).2

theorem step_grid_success {st : PSt} {raw : List Char} {vp va : ℚ}
    (hl : stripChars raw ≠ [])
    (hp : updPtat (bufAppend st (stripChars raw)) st.ptat = some vp)
    (ha : updAvg (bufAppend st (stripChars raw)) st.avg_temp = some va)
    (hlen : (findallGrid (bufAppend st (stripChars raw))).length ≥ 32) :
    step st raw = .done (some vp, some va,
      some ((applyRows st.pixels
        (findallGrid (bufAppend st (stripChars raw)))).1)) := by
  rw [step_eq hl, hp, ha,
    if_pos (show ((some vp).isSome && (some va).isSome) = true from rfl),
    if_pos hlen]
  unfold gridAttempt
  dsimp only
  have hok : (applyRows st.pixels
      (findallGrid (bufAppend st (stripChars raw)))).2 = true := by
    unfold applyRows
    apply applyRowsAux_ok
    intro l hlmem
    obtain ⟨vs, hvs, -⟩ :=
      rowFloats_of_matched (mem_findallGrid (List.mem_of_mem_take hlmem))
    rw [hvs]
    rfl
  rw [if_pos hok]

/-! ### The main loop -/

theorem runAux_nil_input : ∀ (n : ℕ) (st : PSt), runAux n st [] = noData := by
  intro n
  induction n with
  | zero => intro st; rfl
  | succ n ih =>
    intro st
    show (match step st [] with
      | .done r => r
      | .cont st2 => runAux n st2 []) = noData
    have hnil : stripChars ([] : List Char) = [] := rfl
    rw [step_empty_line hnil]
    exact ih st

theorem runAux_extend :
    ∀ (n : ℕ) (st : PSt) (input extra : List (List Char)) (r : PRes),
      runAux n st input = r → r ≠ noData →
      runAux n st (input ++ extra) = r := by
  intro n
  induction n with
  | zero =>
    intro st input extra r h hne
    exact absurd h.symm hne
  | succ n ih =>
    intro st input extra r h hne
    cases input with
    | nil =>
      rw [runAux_nil_input] at h
      exact absurd h.symm hne
    | cons raw rest =>
      have h2 : (match step st raw with
        | .done r2 => r2
        | .cont st2 => runAux n st2 rest) = r := h
      show (match step st raw with
        | .done r2 => r2
        | .cont st2 => runAux n st2 (rest ++ extra)) = r
      cases hs : step st raw with
      | done r2 =>
        rw [hs] at h2
        exact h2
      | cont st2 =>
        rw [hs] at h2
        exact ih st2 rest extra r h2 hne

theorem runAux_shape :
    ∀ (n : ℕ) (st : PSt) (input : List (List Char)),
      (∃ p a px, runAux n st input = (some p, some a, some px)) ∨
        runAux n st input = noData := by
  intro n
  induction n with
  | zero => intro st input; exact Or.inr rfl
  | succ n ih =>
    intro st input
    cases input with
    | nil => exact Or.inr (runAux_nil_input _ _)
    | cons raw rest =>
      have hred : runAux (n + 1) st (raw :: rest) =
          (match step st raw with
            | .done r => r
            | .cont st2 => runAux n st2 rest) := rfl
      cases hs : step st raw with
      | done r =>
        obtain ⟨p, a, px, hr⟩ := step_done_shape hs
        refine Or.inl ⟨p, a, px, ?_⟩
        rw [hred, hs, hr]
      | cont st2 =>
        rw [hred, hs]
        exact ih st2 rest

theorem applyRows_wf (px : List (List ℚ)) (gls : List (List Char))
    (h : pixelsWf px) : pixelsWf (applyRows px gls).1 := by
  unfold applyRows
  exact applyRowsAux_wf _ px 0 h

theorem step_wf_cont {st : PSt} {raw : List Char} {st2 : PSt}
    (hwf : pixelsWf st.pixels) (h : step st raw = .cont st2) :
    pixelsWf st2.pixels := by
  rcases step_cont_cases h with ⟨-, h2⟩ | ⟨-, -, -, -, hpx | hpx⟩
  · subst h2; exact hwf
  · rw [hpx]; exact hwf
  · rw [hpx]; exact applyRows_wf _ _ hwf

theorem step_wf_done {st : PSt} {raw : List Char}
    {p a : Option ℚ} {px : List (List ℚ)}
    (hwf : pixelsWf st.pixels) (h : step st raw = .done (p, a, some px)) :
    pixelsWf px := by
  by_cases hl : stripChars raw = []
  · rw [step_empty_line hl] at h; exact StepRes.noConfusion h
  · rw [step_eq hl] at h
    by_cases hg : ((updPtat (bufAppend st (stripChars raw)) st.ptat).isSome &&
        (updAvg (bufAppend st (stripChars raw)) st.avg_temp).isSome) = true
    · rw [if_pos hg] at h
      by_cases hlen :
          (findallGrid (bufAppend st (stripChars raw))).length ≥ 32
      · rw [if_pos hlen] at h
        unfold gridAttempt at h
        dsimp only at h
        by_cases hok : (applyRows st.pixels
            (findallGrid (bufAppend st (stripChars raw)))).2 = true
        · rw [if_pos hok] at h
          have h2 := StepRes.done.inj h
          have h3 : some (applyRows st.pixels
              (findallGrid (bufAppend st (stripChars raw)))).1 = some px :=
            congrArg (fun r => r.2.2) h2
          rw [← Option.some.inj h3]
          exact applyRows_wf _ _ hwf
        · rw [if_neg hok] at h; exact StepRes.noConfusion h
      · rw [if_neg hlen] at h; exact StepRes.noConfusion h
    · rw [if_neg hg] at h; exact StepRes.noConfusion h

theorem runAux_wf :
    ∀ (n : ℕ) (st : PSt) (input : List (List Char))
      (p a : Option ℚ) (px : List (List ℚ)),
      pixelsWf st.pixels → runAux n st input = (p, a, some px) →
      pixelsWf px := by
  intro n
  induction n with
  | zero =>
    intro st input p a px _ h
    have h0 : (noData : PRes) = (p, a, some px) := h
    simpa [noData] using congrArg (fun r => r.2.2) h0
  | succ n ih =>
    intro st input p a px hwf h
    cases input with
    | nil =>
      rw [runAux_nil_input] at h
      simpa [noData] using congrArg (fun r => r.2.2) h
    | cons raw rest =>
      have h2 : (match step st raw with
        | .done r => r
        | .cont st2 => runAux n st2 rest) = (p, a, some px) := h
      cases hs : step st raw with
      | done r =>
        rw [hs] at h2
        dsimp only at h2
        subst h2
        exact step_wf_done hwf hs
      | cont st2 =>
        rw [hs] at h2
        exact ih st2 rest p a px (step_wf_cont hwf hs) h2

/-! ### Feeding grid rows -/

theorem gridChar_ne_P {c : Char} (h : gridChar c) : c ≠ 'P' := by
  rcases h with h | h | h | h | h
  · subst h; decide
  · subst h; decide
  · subst h; decide
  · subst h; decide
  · exact ne_of_digit_of_not h (by decide)

theorem gridChar_ne_A {c : Char} (h : gridChar c) : c ≠ 'A' := by
  rcases h with h | h | h | h | h
  · subst h; decide
  · subst h; decide
  · subst h; decide
  · subst h; decide
  · exact ne_of_digit_of_not h (by decide)

theorem gridChar_ne_v {c : Char} (h : gridChar c) : c ≠ 'v' := by
  rcases h with h | h | h | h | h
  · subst h; decide
  · subst h; decide
  · subst h; decide
  · subst h; decide
  · exact ne_of_digit_of_not h (by decide)

theorem mem_linesBuf_rows {c : Char} {rows : List (List Dec)}
    (h : c ∈ linesBuf (rows.map rowChars)) : gridChar c := by
  rcases mem_linesBuf h with h | ⟨l, hl, hc⟩
  · exact Or.inr (Or.inr (Or.inr (Or.inl h)))
  · rcases List.mem_map.1 hl with ⟨ds, -, rfl⟩
    rcases mem_rowChars hc with h | h | h | h
    · exact Or.inl h
    · exact Or.inr (Or.inl h)
    · exact Or.inr (Or.inr (Or.inl h))
    · exact Or.inr (Or.inr (Or.inr (Or.inr h)))

theorem findallGrid_rows (rows : List (List Dec))
    (h32 : ∀ r ∈ rows, r.length = 32) :
    findallGrid (linesBuf (rows.map rowChars)) = rows.map rowChars := by
  have hnl : ∀ l ∈ rows.map rowChars, '\n' ∉ l := by
    intro l hl
    rcases List.mem_map.1 hl with ⟨ds, -, rfl⟩
    exact rowChars_no_nl
  have h := findallGrid_linesBuf_append (rows.map rowChars) [] hnl
  rw [List.append_nil, findallGrid_nil, List.append_nil] at h
  rw [h]
  apply List.filter_eq_self.2
  intro l hl
  rcases List.mem_map.1 hl with ⟨ds, hds, rfl⟩
  rw [gridLineParse_rowChars ds (h32 ds hds)]
  rfl

theorem filter_grid_none {ps : List (List Char)}
    (h : ∀ l ∈ ps, gridLineParse l = none) :
    ps.filter (fun l => (gridLineParse l).isSome) = [] := by
  apply List.filter_eq_nil_iff.2
  intro l hl
  rw [h l hl]
  simp

theorem runRows :
    ∀ (rest fed : List (List Dec)) (ps : List (List Char)) (st : PSt)
      (v1 v2 : ℚ) (n : ℕ) (more : List (List Char)),
      (∀ t : List Char, (∀ c ∈ t, gridChar c) →
        updPtat (linesBuf ps ++ t) (some v1) = some v1) →
      (∀ t : List Char, (∀ c ∈ t, gridChar c) →
        updAvg (linesBuf ps ++ t) (some v2) = some v2) →
      (∀ l ∈ ps, '\n' ∉ l) →
      (∀ l ∈ ps, gridLineParse l = none) →
      (∀ r ∈ fed ++ rest, r.length = 32) →
      (fed ++ rest).length = 32 →
      rest ≠ [] →
      (linesBuf ps ++ linesBuf ((fed ++ rest).map rowChars)).length ≤ 10000 →
      st.ptat = some v1 → st.avg_temp = some v2 → pixelsWf st.pixels →
      st.buffer = linesBuf ps ++ linesBuf (fed.map rowChars) →
      rest.length ≤ n →
      runAux n st (rest.map rowChars ++ more) =
        (some v1, some v2,
          some ((fed ++ rest).map (fun r => r.map decVal))) := by
  intro rest
  induction rest with
  | nil =>
    intro fed ps st v1 v2 n more _ _ _ _ _ _ hne
    exact absurd rfl hne
  | cons r rest2 ih =>
    intro fed ps st v1 v2 n more hp ha hnl hpsg h32 hlen32 _ h10k hst1 hst2
      hwf hbuf hn
    cases n with
    | zero => rw [List.length_cons] at hn; omega
    | succ m =>
      have hr32 : r.length = 32 := h32 r (by simp)
      have hrne : r ≠ [] := by
        intro he; rw [he] at hr32; exact absurd hr32 (by decide)
      have hstrip : stripChars (rowChars r) = rowChars r :=
        stripChars_rowChars hrne
      have hlinene : stripChars (rowChars r) ≠ [] := by
        rw [hstrip]; exact rowChars_ne_nil hrne
      have hbufa : bufAppend st (stripChars (rowChars r)) =
          linesBuf ps ++ linesBuf ((fed ++ [r]).map rowChars) := by
        rw [hstrip]
        unfold bufAppend
        rw [hbuf, List.map_append, linesBuf_append]
        simp [linesBuf_cons, linesBuf_nil, List.append_assoc]
      have hchars : ∀ c ∈ linesBuf ((fed ++ [r]).map rowChars), gridChar c :=
        fun c hc => mem_linesBuf_rows hc
      have hpv : updPtat (bufAppend st (stripChars (rowChars r))) st.ptat
          = some v1 := by
        rw [hbufa, hst1]
        exact hp _ hchars
      have hav : updAvg (bufAppend st (stripChars (rowChars r))) st.avg_temp
          = some v2 := by
        rw [hbufa, hst2]
        exact ha _ hchars
      have h32' : ∀ x ∈ fed ++ [r], x.length = 32 := by
        intro x hx
        rcases List.mem_append.1 hx with hx | hx
        · exact h32 x (List.mem_append.2 (Or.inl hx))
        · rcases List.mem_singleton.1 hx with rfl
          exact hr32
      have hfg : findallGrid (bufAppend st (stripChars (rowChars r))) =
          (fed ++ [r]).map rowChars := by
        rw [hbufa]
        have h1 := findallGrid_linesBuf_append ps
          (linesBuf ((fed ++ [r]).map rowChars)) hnl
        rw [h1, filter_grid_none hpsg, List.nil_append]
        exact findallGrid_rows (fed ++ [r]) h32'
      have hfglen : (findallGrid (bufAppend st (stripChars (rowChars r)))).length
          = fed.length + 1 := by
        rw [hfg]
        simp
      show (match step st (rowChars r) with
        | .done r2 => r2
        | .cont st2 => runAux m st2 (rest2.map rowChars ++ more)) =
        (some v1, some v2,
          some ((fed ++ r :: rest2).map (fun x => x.map decVal)))
      cases rest2 with
      | nil =>
        have hfed : fed.length + 1 = 32 := by
          rw [List.length_append, List.length_cons] at hlen32
          simpa using hlen32
        have hge : (findallGrid
            (bufAppend st (stripChars (rowChars r)))).length ≥ 32 := by
          rw [hfglen, hfed]
        have hdone := step_grid_success hlinene hpv hav hge
        rw [hdone]
        dsimp only
        rw [hfg, applyRows_rows (fed ++ [r]) st.pixels
          (by rw [List.length_append]; simpa using hfed) hwf.1 h32']
      | cons x xs =>
        have hlt : ¬((findallGrid
            (bufAppend st (stripChars (rowChars r)))).length ≥ 32) := by
          rw [hfglen]
          rw [List.length_append, List.length_cons, List.length_cons] at hlen32
          omega
        have hmono : ¬((bufAppend st (stripChars (rowChars r))).length
            > 10000) := by
          rw [hbufa]
          have hsplit : fed ++ r :: x :: xs = (fed ++ [r]) ++ x :: xs := by
            simp
          rw [hsplit, List.map_append, linesBuf_append] at h10k
          simp only [List.length_append] at h10k ⊢
          omega
        rw [step_eq hlinene, hpv, hav,
          if_pos (show ((some v1).isSome && (some v2).isSome) = true from rfl),
          if_neg hlt]
        unfold overflowCheck
        rw [if_neg hmono]
        dsimp only
        have hassoc : (fed ++ [r]) ++ x :: xs = fed ++ r :: x :: xs := by
          simp
        have ihres := ih (fed ++ [r]) ps
          ⟨some v1, some v2, st.pixels,
            bufAppend st (stripChars (rowChars r))⟩
          v1 v2 m more hp ha hnl hpsg
          (by rw [hassoc]; exact h32)
          (by rw [hassoc]; exact hlen32)
          (by simp)
          (by rw [hassoc]; exact h10k)
          rfl rfl hwf
          (by dsimp only; rw [hbufa])
          (by rw [List.length_cons] at hn; simpa using hn)
        rw [hassoc] at ihres
        exact ihres

theorem zeros32_wf : pixelsWf zeros32 := by
  constructor
  · simp [zeros32]
  · intro r hr
    unfold zeros32 at hr
    rw [(List.mem_replicate.1 hr).2]
    simp

theorem mem_scalar_buf_no_v {pd : Dec} {h1 h2 : Char}
    (hh1 : isHexB h1 = true) (hh2 : isHexB h2 = true) :
    ∀ c ∈ ptatLineC pd h1 h2 ++ ['\n'], c ≠ 'v' := by
  intro c hc
  rcases List.mem_append.1 hc with hc | hc
  · exact ptatLineC_no_v hh1 hh2 c hc
  · rcases List.mem_singleton.1 hc with rfl
    decide

theorem avg_head_ne_v (ad : Dec) (t : List Char) :
    ∀ c, (avgLineC ad ++ t).head? = some c → c ≠ 'v' := by
  intro c hc
  rw [List.head?_append, avgLineC_head] at hc
  simp only [Option.or_some, Option.some.injEq] at hc
  subst hc; decide

/-- The scalar prefix of the buffer in the well-formed run. -/
theorem scalar_prefix_searches (pd ad : Dec) (h1 h2 : Char)
    (hh1 : isHexB h1 = true) (hh2 : isHexB h2 = true) (t : List Char) :
    searchPtat (linesBuf [ptatLineC pd h1 h2, avgLineC ad] ++ t) =
      some (decVal pd) ∧
    searchAvg (linesBuf [ptatLineC pd h1 h2, avgLineC ad] ++ t) =
      some (decVal ad) := by
  have hsh : linesBuf [ptatLineC pd h1 h2, avgLineC ad] ++ t =
      ptatLineC pd h1 h2 ++ ('\n' :: (avgLineC ad ++ ('\n' :: t))) := by
    simp [linesBuf_cons, linesBuf_nil, List.append_assoc]
  constructor
  · rw [hsh]
    exact searchPtat_of_matchAt (matchPtatAt_front pd h1 h2 _ hh1 hh2)
  · rw [hsh]
    rw [show ptatLineC pd h1 h2 ++ ('\n' :: (avgLineC ad ++ ('\n' :: t))) =
      (ptatLineC pd h1 h2 ++ ['\n']) ++ (avgLineC ad ++ ('\n' :: t)) from by
      simp [List.append_assoc]]
    rw [searchAvg_append_no_v (mem_scalar_buf_no_v hh1 hh2)
      (avg_head_ne_v ad _)]
    exact searchAvg_of_matchAt (matchAvgAt_front ad _)

theorem runWellFormed (pd ad : Dec) (h1 h2 : Char) (rows : List (List Dec))
    (fuel : ℕ) (hh1 : isHexB h1 = true) (hh2 : isHexB h2 = true)
    (hrows : rows.length = 32) (hr32 : ∀ r ∈ rows, r.length = 32)
    (hfuel : 34 ≤ fuel)
    (h10k : (linesBuf (ptatLineC pd h1 h2 :: avgLineC ad ::
      rows.map rowChars)).length ≤ 10000) :
    runAux fuel initSt
      (ptatLineC pd h1 h2 :: avgLineC ad :: rows.map rowChars) =
      (some (decVal pd), some (decVal ad),
        some (rows.map (fun r => r.map decVal))) := by
  obtain ⟨k, hk⟩ := Nat.exists_eq_add_of_le hfuel
  subst hk
  rw [Nat.add_comm 34 k]
  -- abbreviations
  have hlenbuf : (linesBuf (ptatLineC pd h1 h2 :: avgLineC ad ::
      rows.map rowChars)).length =
      (ptatLineC pd h1 h2).length + 1 + ((avgLineC ad).length + 1 +
        (linesBuf (rows.map rowChars)).length) := by
    rw [linesBuf_cons, linesBuf_cons]
    simp [List.length_append]
    omega
  -- iteration 1
  have hstrip1 : stripChars (ptatLineC pd h1 h2) = ptatLineC pd h1 h2 :=
    stripChars_ptatLineC hh2
  have hne1 : stripChars (ptatLineC pd h1 h2) ≠ [] := by
    rw [hstrip1]; exact ptatLineC_ne_nil pd h1 h2
  have hB1 : bufAppend initSt (stripChars (ptatLineC pd h1 h2)) =
      ptatLineC pd h1 h2 ++ ['\n'] := by
    rw [hstrip1]
    unfold bufAppend initSt
    simp
  have hp1 : updPtat (bufAppend initSt (stripChars (ptatLineC pd h1 h2)))
      initSt.ptat = some (decVal pd) := by
    rw [hB1]
    exact updPtat_of_search_some
      (searchPtat_of_matchAt (matchPtatAt_front pd h1 h2 _ hh1 hh2))
  have ha1 : updAvg (bufAppend initSt (stripChars (ptatLineC pd h1 h2)))
      initSt.avg_temp = none := by
    rw [hB1]
    exact updAvg_of_search_none
      (searchAvg_none_of_no_v (mem_scalar_buf_no_v hh1 hh2))
  have hov1 : ¬((bufAppend initSt (stripChars (ptatLineC pd h1 h2))).length
      > 10000) := by
    rw [hB1]
    rw [hlenbuf] at h10k
    simp [List.length_append]
    omega
  show (match step initSt (ptatLineC pd h1 h2) with
    | .done r => r
    | .cont st2 => runAux (k + 33) st2
        (avgLineC ad :: rows.map rowChars)) = _
  rw [step_eq hne1, hp1, ha1,
    if_neg (show ¬(((some (decVal pd)).isSome &&
      (none : Option ℚ).isSome) = true) from by simp)]
  unfold overflowCheck
  rw [if_neg hov1]
  dsimp only
  -- iteration 2
  have hstrip2 : stripChars (avgLineC ad) = avgLineC ad :=
    stripChars_avgLineC ad
  have hne2 : stripChars (avgLineC ad) ≠ [] := by
    rw [hstrip2]; exact avgLineC_ne_nil ad
  have hB2 : bufAppend
      ⟨some (decVal pd), none, initSt.pixels,
        bufAppend initSt (stripChars (ptatLineC pd h1 h2))⟩
      (stripChars (avgLineC ad)) =
      linesBuf [ptatLineC pd h1 h2, avgLineC ad] := by
    show (⟨some (decVal pd), none, initSt.pixels,
      bufAppend initSt (stripChars (ptatLineC pd h1 h2))⟩ : PSt).buffer ++
        stripChars (avgLineC ad) ++ ['\n'] =
      linesBuf [ptatLineC pd h1 h2, avgLineC ad]
    dsimp only
    rw [hB1, hstrip2]
    simp [linesBuf_cons, linesBuf_nil, List.append_assoc]
  have hsearch2 := scalar_prefix_searches pd ad h1 h2 hh1 hh2 []
  rw [List.append_nil] at hsearch2
  have hp2 : updPtat (bufAppend
      ⟨some (decVal pd), none, initSt.pixels,
        bufAppend initSt (stripChars (ptatLineC pd h1 h2))⟩
      (stripChars (avgLineC ad))) (some (decVal pd)) = some (decVal pd) := by
    rw [hB2]
    exact updPtat_of_search_some hsearch2.1
  have ha2 : updAvg (bufAppend
      ⟨some (decVal pd), none, initSt.pixels,
        bufAppend initSt (stripChars (ptatLineC pd h1 h2))⟩
      (stripChars (avgLineC ad))) none = some (decVal ad) := by
    rw [hB2]
    exact updAvg_of_search_some hsearch2.2
  have hps_nl : ∀ l ∈ [ptatLineC pd h1 h2, avgLineC ad], '\n' ∉ l := by
    intro l hl
    rcases List.mem_cons.1 hl with rfl | hl
    · exact ptatLineC_no_nl hh1 hh2
    · rcases List.mem_cons.1 hl with rfl | hl
      · exact avgLineC_no_nl
      · exact absurd hl (by simp)
  have hps_g : ∀ l ∈ [ptatLineC pd h1 h2, avgLineC ad],
      gridLineParse l = none := by
    intro l hl
    rcases List.mem_cons.1 hl with rfl | hl
    · exact gridLineParse_ptatLineC pd h1 h2
    · rcases List.mem_cons.1 hl with rfl | hl
      · exact gridLineParse_avgLineC ad
      · exact absurd hl (by simp)
  have hfg2 : findallGrid (bufAppend
      ⟨some (decVal pd), none, initSt.pixels,
        bufAppend initSt (stripChars (ptatLineC pd h1 h2))⟩
      (stripChars (avgLineC ad))) = [] := by
    rw [hB2]
    have h1 := findallGrid_linesBuf_append
      [ptatLineC pd h1 h2, avgLineC ad] [] hps_nl
    rw [List.append_nil, findallGrid_nil, List.append_nil] at h1
    rw [h1, filter_grid_none hps_g]
  have hov2 : ¬((bufAppend
      ⟨some (decVal pd), none, initSt.pixels,
        bufAppend initSt (stripChars (ptatLineC pd h1 h2))⟩
      (stripChars (avgLineC ad))).length > 10000) := by
    rw [hB2]
    rw [hlenbuf] at h10k
    simp [linesBuf_cons, linesBuf_nil, List.length_append]
    omega
  show (match step
      ⟨some (decVal pd), none, initSt.pixels,
        bufAppend initSt (stripChars (ptatLineC pd h1 h2))⟩
      (avgLineC ad) with
    | .done r => r
    | .cont st2 => runAux (k + 32) st2 (rows.map rowChars)) = _
  rw [step_eq hne2, hp2, ha2,
    if_pos (show (((some (decVal pd)).isSome &&
      (some (decVal ad)).isSome) = true) from rfl),
    hfg2, if_neg (show ¬(([] : List (List Char)).length ≥ 32) from by simp)]
  unfold overflowCheck
  rw [if_neg hov2]
  dsimp only
  -- the 32 grid rows
  have hrowsne : rows ≠ [] := by
    intro he; rw [he] at hrows; exact absurd hrows (by decide)
  have hrun := runRows rows [] [ptatLineC pd h1 h2, avgLineC ad]
    ⟨some (decVal pd), some (decVal ad), initSt.pixels,
      bufAppend
        ⟨some (decVal pd), none, initSt.pixels,
          bufAppend initSt (stripChars (ptatLineC pd h1 h2))⟩
        (stripChars (avgLineC ad))⟩
    (decVal pd) (decVal ad) (k + 32) []
    (fun t _ => updPtat_of_search_some
      (scalar_prefix_searches pd ad h1 h2 hh1 hh2 t).1)
    (fun t _ => updAvg_of_search_some
      (scalar_prefix_searches pd ad h1 h2 hh1 hh2 t).2)
    hps_nl hps_g
    (by simpa using hr32)
    (by simpa using hrows)
    hrowsne
    (by
      rw [show linesBuf (ptatLineC pd h1 h2 :: avgLineC ad ::
        rows.map rowChars) =
        linesBuf [ptatLineC pd h1 h2, avgLineC ad] ++
          linesBuf (rows.map rowChars) from by
        rw [← linesBuf_append]; rfl] at h10k
      simpa using h10k)
    rfl rfl zeros32_wf
    (by
      dsimp only
      rw [hB2]
      simp [linesBuf_nil])
    (by omega)
  rw [List.append_nil] at hrun
  rw [hrun]
  simp

theorem runScalars (pd ad : Dec) (h1 h2 : Char)
    (hh1 : isHexB h1 = true) (hh2 : isHexB h2 = true)
    (more : List (List Char)) (n : ℕ)
    (hsz : (ptatLineC pd h1 h2).length + 1 + ((avgLineC ad).length + 1)
      ≤ 10000) :
    runAux (n + 2) initSt (ptatLineC pd h1 h2 :: avgLineC ad :: more) =
      runAux n
        ⟨some (decVal pd), some (decVal ad), zeros32,
          linesBuf [ptatLineC pd h1 h2, avgLineC ad]⟩ more := by
  have hstrip1 : stripChars (ptatLineC pd h1 h2) = ptatLineC pd h1 h2 :=
    stripChars_ptatLineC hh2
  have hne1 : stripChars (ptatLineC pd h1 h2) ≠ [] := by
    rw [hstrip1]; exact ptatLineC_ne_nil pd h1 h2
  have hB1 : bufAppend initSt (stripChars (ptatLineC pd h1 h2)) =
      ptatLineC pd h1 h2 ++ ['\n'] := by
    rw [hstrip1]
    unfold bufAppend initSt
    simp
  have hp1 : updPtat (bufAppend initSt (stripChars (ptatLineC pd h1 h2)))
      initSt.ptat = some (decVal pd) := by
    rw [hB1]
    exact updPtat_of_search_some
      (searchPtat_of_matchAt (matchPtatAt_front pd h1 h2 _ hh1 hh2))
  have ha1 : updAvg (bufAppend initSt (stripChars (ptatLineC pd h1 h2)))
      initSt.avg_temp = none := by
    rw [hB1]
    exact updAvg_of_search_none
      (searchAvg_none_of_no_v (mem_scalar_buf_no_v hh1 hh2))
  have hov1 : ¬((bufAppend initSt (stripChars (ptatLineC pd h1 h2))).length
      > 10000) := by
    rw [hB1]
    simp [List.length_append]
    omega
  show (match step initSt (ptatLineC pd h1 h2) with
    | .done r => r
    | .cont st2 => runAux (n + 1) st2 (avgLineC ad :: more)) = _
  rw [step_eq hne1, hp1, ha1,
    if_neg (show ¬(((some (decVal pd)).isSome &&
      (none : Option ℚ).isSome) = true) from by simp)]
  unfold overflowCheck
  rw [if_neg hov1]
  dsimp only
  have hstrip2 : stripChars (avgLineC ad) = avgLineC ad :=
    stripChars_avgLineC ad
  have hne2 : stripChars (avgLineC ad) ≠ [] := by
    rw [hstrip2]; exact avgLineC_ne_nil ad
  have hB2 : bufAppend
      ⟨some (decVal pd), none, initSt.pixels,
        bufAppend initSt (stripChars (ptatLineC pd h1 h2))⟩
      (stripChars (avgLineC ad)) =
      linesBuf [ptatLineC pd h1 h2, avgLineC ad] := by
    show (⟨some (decVal pd), none, initSt.pixels,
      bufAppend initSt (stripChars (ptatLineC pd h1 h2))⟩ : PSt).buffer ++
        stripChars (avgLineC ad) ++ ['\n'] =
      linesBuf [ptatLineC pd h1 h2, avgLineC ad]
    dsimp only
    rw [hB1, hstrip2]
    simp [linesBuf_cons, linesBuf_nil, List.append_assoc]
  have hsearch2 := scalar_prefix_searches pd ad h1 h2 hh1 hh2 []
  rw [List.append_nil] at hsearch2
  have hp2 : updPtat (bufAppend
      ⟨some (decVal pd), none, initSt.pixels,
        bufAppend initSt (stripChars (ptatLineC pd h1 h2))⟩
      (stripChars (avgLineC ad))) (some (decVal pd)) = some (decVal pd) := by
    rw [hB2]
    exact updPtat_of_search_some hsearch2.1
  have ha2 : updAvg (bufAppend
      ⟨some (decVal pd), none, initSt.pixels,
        bufAppend initSt (stripChars (ptatLineC pd h1 h2))⟩
      (stripChars (avgLineC ad))) none = some (decVal ad) := by
    rw [hB2]
    exact updAvg_of_search_some hsearch2.2
  have hps_nl : ∀ l ∈ [ptatLineC pd h1 h2, avgLineC ad], '\n' ∉ l := by
    intro l hl
    rcases List.mem_cons.1 hl with rfl | hl
    · exact ptatLineC_no_nl hh1 hh2
    · rcases List.mem_cons.1 hl with rfl | hl
      · exact avgLineC_no_nl
      · exact absurd hl (by simp)
  have hps_g : ∀ l ∈ [ptatLineC pd h1 h2, avgLineC ad],
      gridLineParse l = none := by
    intro l hl
    rcases List.mem_cons.1 hl with rfl | hl
    · exact gridLineParse_ptatLineC pd h1 h2
    · rcases List.mem_cons.1 hl with rfl | hl
      · exact gridLineParse_avgLineC ad
      · exact absurd hl (by simp)
  have hfg2 : findallGrid (bufAppend
      ⟨some (decVal pd), none, initSt.pixels,
        bufAppend initSt (stripChars (ptatLineC pd h1 h2))⟩
      (stripChars (avgLineC ad))) = [] := by
    rw [hB2]
    have hx := findallGrid_linesBuf_append
      [ptatLineC pd h1 h2, avgLineC ad] [] hps_nl
    rw [List.append_nil, findallGrid_nil, List.append_nil] at hx
    rw [hx, filter_grid_none hps_g]
  have hov2 : ¬((bufAppend
      ⟨some (decVal pd), none, initSt.pixels,
        bufAppend initSt (stripChars (ptatLineC pd h1 h2))⟩
      (stripChars (avgLineC ad))).length > 10000) := by
    rw [hB2]
    simp [linesBuf_cons, linesBuf_nil, List.length_append]
    omega
  show (match step
      ⟨some (decVal pd), none, initSt.pixels,
        bufAppend initSt (stripChars (ptatLineC pd h1 h2))⟩
      (avgLineC ad) with
    | .done r => r
    | .cont st2 => runAux n st2 more) = _
  rw [step_eq hne2, hp2, ha2,
    if_pos (show (((some (decVal pd)).isSome &&
      (some (decVal ad)).isSome) = true) from rfl),
    hfg2, if_neg (show ¬(([] : List (List Char)).length ≥ 32) from by simp)]
  unfold overflowCheck
  rw [if_neg hov2]
  dsimp only
  rw [hB2]
  rfl

theorem linesBuf_replicate_length (n : ℕ) (x : List Char) :
    (linesBuf (List.replicate n x)).length = n * (x.length + 1) := by
  induction n with
  | zero => simp [linesBuf_nil]
  | succ m ih =>
    rw [List.replicate_succ, linesBuf_cons, List.length_append,
      List.length_cons, ih]
    ring

theorem gridRowsEx_chars : gridRowsEx.map rowChars =
    List.replicate 32 (rowChars zRowEx) := by
  rw [show gridRowsEx = List.replicate 32 zRowEx from rfl, List.map_replicate]

set_option maxRecDepth 10000 in
theorem gridRowsEx_vals : gridRowsEx.map (fun r => r.map decVal) = zeros32 := by
  rw [show gridRowsEx = List.replicate 32 zRowEx from rfl, List.map_replicate]
  rw [show zRowEx = List.replicate 32 zDec from rfl, List.map_replicate]
  rw [show decVal zDec = mkRat 0 1 from by decide]
  rfl

set_option maxRecDepth 10000 in
theorem gridRowsEx_buf_len :
    (linesBuf (gridRowsEx.map rowChars)).length = 4096 := by
  rw [gridRowsEx_chars, linesBuf_replicate_length,
    show (rowChars zRowEx).length = 127 from by decide]

theorem gridRowsEx_buf_short :
    (linesBuf (gridRowsEx.map rowChars)).length ≤ 10000 := by
  rw [gridRowsEx_buf_len]
  norm_num

theorem runAux_cons (n : ℕ) (st : PSt) (raw : List Char)
    (rest : List (List Char)) :
    runAux (n + 1) st (raw :: rest) =
      (match step st raw with
        | .done r => r
        | .cont st2 => runAux n st2 rest) := rfl

theorem runCombine :
    runAux 40 initSt combineInput = (some exPtat, some exAvg, some zeros32) := by
  have hh1 : isHexB '1' = true := by decide
  have hh2 : isHexB 'F' = true := by decide
  have hv1 : decVal pDecEx = exPtat := by decide
  have hv2 : decVal aDecEx = exAvg := by decide
  have hscal := runScalars pDecEx aDecEx '1' 'F' hh1 hh2
    (junkLine :: gridRowsEx.map rowChars) 38 (by decide)
  unfold combineInput
  rw [show (40 : ℕ) = 38 + 2 from rfl, hscal]
  -- iteration 3: the junk line overflows the buffer
  have hne3 : stripChars junkLine ≠ [] := by
    rw [stripChars_junkLine]; exact junkLine_ne_nil
  have hB3 : bufAppend
      ⟨some (decVal pDecEx), some (decVal aDecEx), zeros32,
        linesBuf [ptatLineC pDecEx '1' 'F', avgLineC aDecEx]⟩
      (stripChars junkLine) =
      linesBuf [ptatLineC pDecEx '1' 'F', avgLineC aDecEx] ++
        (junkLine ++ ['\n']) := by
    show linesBuf [ptatLineC pDecEx '1' 'F', avgLineC aDecEx] ++
      stripChars junkLine ++ ['\n'] = _
    rw [stripChars_junkLine]
    simp [List.append_assoc]
  have hsearch3 := scalar_prefix_searches pDecEx aDecEx '1' 'F' hh1 hh2
    (junkLine ++ ['\n'])
  have hp3 : updPtat (bufAppend
      ⟨some (decVal pDecEx), some (decVal aDecEx), zeros32,
        linesBuf [ptatLineC pDecEx '1' 'F', avgLineC aDecEx]⟩
      (stripChars junkLine)) (some (decVal pDecEx)) = some (decVal pDecEx) := by
    rw [hB3]
    exact updPtat_of_search_some hsearch3.1
  have ha3 : updAvg (bufAppend
      ⟨some (decVal pDecEx), some (decVal aDecEx), zeros32,
        linesBuf [ptatLineC pDecEx '1' 'F', avgLineC aDecEx]⟩
      (stripChars junkLine)) (some (decVal aDecEx)) = some (decVal aDecEx) := by
    rw [hB3]
    exact updAvg_of_search_some hsearch3.2
  have hps3_nl : ∀ l ∈ [ptatLineC pDecEx '1' 'F', avgLineC aDecEx, junkLine],
      '\n' ∉ l := by
    intro l hl
    rcases List.mem_cons.1 hl with rfl | hl
    · exact ptatLineC_no_nl hh1 hh2
    · rcases List.mem_cons.1 hl with rfl | hl
      · exact avgLineC_no_nl
      · rcases List.mem_cons.1 hl with rfl | hl
        · exact junkLine_no_nl
        · exact absurd hl (by simp)
  have hps3_g : ∀ l ∈ [ptatLineC pDecEx '1' 'F', avgLineC aDecEx, junkLine],
      gridLineParse l = none := by
    intro l hl
    rcases List.mem_cons.1 hl with rfl | hl
    · exact gridLineParse_ptatLineC pDecEx '1' 'F'
    · rcases List.mem_cons.1 hl with rfl | hl
      · exact gridLineParse_avgLineC aDecEx
      · rcases List.mem_cons.1 hl with rfl | hl
        · exact gridLineParse_junkLine
        · exact absurd hl (by simp)
  have hfg3 : findallGrid (bufAppend
      ⟨some (decVal pDecEx), some (decVal aDecEx), zeros32,
        linesBuf [ptatLineC pDecEx '1' 'F', avgLineC aDecEx]⟩
      (stripChars junkLine)) = [] := by
    rw [hB3]
    rw [show linesBuf [ptatLineC pDecEx '1' 'F', avgLineC aDecEx] ++
      (junkLine ++ ['\n']) =
      linesBuf [ptatLineC pDecEx '1' 'F', avgLineC aDecEx, junkLine] ++ []
      from by simp [linesBuf_cons, linesBuf_nil, List.append_assoc]]
    rw [findallGrid_linesBuf_append _ [] hps3_nl, findallGrid_nil,
      List.append_nil, filter_grid_none hps3_g]
  have hov3 : (bufAppend
      ⟨some (decVal pDecEx), some (decVal aDecEx), zeros32,
        linesBuf [ptatLineC pDecEx '1' 'F', avgLineC aDecEx]⟩
      (stripChars junkLine)).length > 10000 := by
    rw [hB3]
    rw [List.length_append, List.length_append, junkLine_length,
      show (['\n'] : List Char).length = 1 from rfl]
    omega
  rw [show (38 : ℕ) = 37 + 1 from rfl, runAux_cons]
  rw [step_eq hne3, hp3, ha3,
    if_pos (show (((some (decVal pDecEx)).isSome &&
      (some (decVal aDecEx)).isSome) = true) from rfl),
    hfg3, if_neg (show ¬(([] : List (List Char)).length ≥ 32) from by simp)]
  unfold overflowCheck
  rw [if_pos hov3]
  dsimp only
  -- the 32 rows from the cleared buffer
  have h32 : ∀ r ∈ ([] : List (List Dec)) ++ gridRowsEx, r.length = 32 := by
    intro r hr
    rw [List.nil_append] at hr
    rw [(List.mem_replicate.1 hr).2]
    simp [zRowEx]
  have hrun := runRows gridRowsEx [] []
    ⟨some (decVal pDecEx), some (decVal aDecEx), zeros32, []⟩
    (decVal pDecEx) (decVal aDecEx) 37 []
    (fun t ht => by
      rw [linesBuf_nil, List.nil_append]
      exact updPtat_of_search_none (searchPtat_none_of_no_P
        (fun c hc => gridChar_ne_P (ht c hc))))
    (fun t ht => by
      rw [linesBuf_nil, List.nil_append]
      exact updAvg_of_search_none (searchAvg_none_of_no_v
        (fun c hc => gridChar_ne_v (ht c hc))))
    (by intro l hl; exact absurd hl (by simp))
    (by intro l hl; exact absurd hl (by simp))
    h32
    (by simp [gridRowsEx])
    (by simp [gridRowsEx])
    (by
      rw [linesBuf_nil, List.nil_append, List.nil_append]
      exact gridRowsEx_buf_short)
    rfl rfl zeros32_wf
    (by simp [linesBuf_nil])
    (by simp [gridRowsEx])
  rw [List.append_nil] at hrun
  rw [hrun]
  rw [hv1, hv2]
  rw [show (([] : List (List Dec)) ++ gridRowsEx).map
    (fun r => r.map decVal) = zeros32 from by
    rw [List.nil_append]
    exact gridRowsEx_vals]

/-! ### Helper facts for the concrete example -/

theorem gridRowsEx_len : gridRowsEx.length = 32 := by
  simp [gridRowsEx]

theorem gridRowsEx_rows32 : ∀ r ∈ gridRowsEx, r.length = 32 := by
  intro r hr
  rw [(List.mem_replicate.1 hr).2]
  simp [zRowEx]

theorem exInput_buf_short :
    (linesBuf (ptatLineC pDecEx '1' 'F' :: avgLineC aDecEx ::
      gridRowsEx.map rowChars)).length ≤ 10000 := by
  rw [linesBuf_cons, linesBuf_cons]
  have h1 : (ptatLineC pDecEx '1' 'F').length = 23 := by decide
  have h2 : (avgLineC aDecEx).length = 22 := by decide
  have h3 := gridRowsEx_buf_len
  simp only [List.length_append, List.length_cons, h1, h2]
  omega

theorem exPtat_val : decVal pDecEx = exPtat := by decide

theorem exAvg_val : decVal aDecEx = exAvg := by decide

/-- The spec's end-to-end example, evaluated through the general lemma. -/
theorem exampleRunEq :
    parse_uart_data 40 exInput = (some exPtat, some exAvg, some zeros32) := by
  have h := runWellFormed pDecEx aDecEx '1' 'F' gridRowsEx 40
    (by decide) (by decide) gridRowsEx_len gridRowsEx_rows32
    (by norm_num) exInput_buf_short
  rw [exPtat_val, exAvg_val, gridRowsEx_vals] at h
  exact h

/-! ### The claims -/

/-- C1: for every stream consisting of a well-formed PTAT line, a
well-formed average-temperature line, and 32 well-formed grid rows of 32
decimals each — within the buffer-size bound of the parser and the
`PARSE_TIMEOUT` window — `parse_uart_data` returns exactly the PTAT
scalar, the average scalar and the 32×32 grid of those values; the spec's
end-to-end example (`25.3`, `24.8`, 32 rows of 32 zeros) is the witness
instance. -/
theorem c1_well_formed_frame (pd ad : Dec) (h1 h2 : Char)
    (rows : List (List Dec)) (fuel : ℕ)
    (hh1 : isHexB h1 = true) (hh2 : isHexB h2 = true)
    (hrows : rows.length = 32) (hr32 : ∀ r ∈ rows, r.length = 32)
    (hfuel : 34 ≤ fuel)
    (h10k : (linesBuf (ptatLineC pd h1 h2 :: avgLineC ad ::
      rows.map rowChars)).length ≤ 10000) :
    parse_uart_data fuel
      (ptatLineC pd h1 h2 :: avgLineC ad :: rows.map rowChars) =
      (some (decVal pd), some (decVal ad),
        some (rows.map (fun r => r.map decVal))) :=
  runWellFormed pd ad h1 h2 rows fuel hh1 hh2 hrows hr32 hfuel h10k

/-- C1 witness: the spec's example instantiates every hypothesis. -/
theorem c1_witness :
    isHexB '1' = true ∧ isHexB 'F' = true ∧ gridRowsEx.length = 32 ∧
    (∀ r ∈ gridRowsEx, r.length = 32) ∧ 34 ≤ 40 ∧
    (linesBuf (ptatLineC pDecEx '1' 'F' :: avgLineC aDecEx ::
      gridRowsEx.map rowChars)).length ≤ 10000 ∧
    parse_uart_data 40 exInput = (some exPtat, some exAvg, some zeros32) := by
  refine ⟨by decide, by decide, gridRowsEx_len, gridRowsEx_rows32,
    by norm_num, exInput_buf_short, ?_⟩
  have h := c1_well_formed_frame pDecEx aDecEx '1' 'F' gridRowsEx 40
    (by decide) (by decide) gridRowsEx_len gridRowsEx_rows32
    (by norm_num) exInput_buf_short
  rw [exPtat_val, exAvg_val, gridRowsEx_vals] at h
  exact h

set_option maxRecDepth 10000 in
/-- C2 counterexample: a line of exactly 32 whitespace-separated signed
decimals whose first separator is a tab satisfies the spec-side
recognizer, but the grid regex of the code does not match it and
`findall` does not count it. -/
theorem c2_counterexample :
    specGridLine tabLineEx = true ∧
    (gridLineParse tabLineEx).isSome = false ∧
    findallGrid (tabLineEx ++ ['\n']) = [] := by decide

/-- C2 (amended): once both scalars have been found, a line of the buffer
is counted as a grid line if and only if it consists of exactly 32 signed
decimals (of the form `-?\d+\.\d+`) separated by single spaces. -/
theorem c2_amended_grid_recognizer (buf l : List Char) :
    l ∈ findallGrid buf ↔
      l ∈ splitLines buf ∧
        ∃ ds : List Dec, ds.length = 32 ∧ l = rowChars ds := by
  unfold findallGrid
  rw [List.mem_filter]
  constructor
  · rintro ⟨hmem, hmatch⟩
    refine ⟨hmem, ?_⟩
    rw [Option.isSome_iff_exists] at hmatch
    obtain ⟨vs, hvs⟩ := hmatch
    obtain ⟨ds, hlen, hrow, -⟩ := gridLineParse_complete hvs
    exact ⟨ds, hlen, hrow⟩
  · rintro ⟨hmem, ds, hlen, rfl⟩
    refine ⟨hmem, ?_⟩
    rw [gridLineParse_rowChars ds hlen]
    rfl

/-- C3: a returned pixel grid always has 32 rows of 32 values; the
grid-filling loop only reads the first 32 matched lines; and appending
extra trailing lines to a stream that already produced a frame does not
change the returned scalars or grid. -/
theorem c3_shape_first32_extension :
    (∀ (fuel : ℕ) (input : List (List Char)) (p a : Option ℚ)
      (px : List (List ℚ)),
      parse_uart_data fuel input = (p, a, some px) →
      px.length = 32 ∧ ∀ r ∈ px, r.length = 32) ∧
    (∀ (px : List (List ℚ)) (g1 g2 : List (List Char)),
      g1.take 32 = g2.take 32 → applyRows px g1 = applyRows px g2) ∧
    (∀ (fuel : ℕ) (st : PSt) (input extra : List (List Char)) (r : PRes),
      runAux fuel st input = r → r ≠ noData →
      runAux fuel st (input ++ extra) = r) := by
  refine ⟨?_, ?_, ?_⟩
  · intro fuel input p a px h
    exact runAux_wf fuel initSt input p a px zeros32_wf h
  · intro px g1 g2 h
    unfold applyRows
    rw [h]
  · intro fuel st input extra r h hne
    exact runAux_extend fuel st input extra r h hne

/-- C3 witness: the example frame has shape 32×32; the grid loop ignores
a 33rd matched line; the example run is unchanged by a trailing line. -/
theorem c3_witness :
    (zeros32.length = 32 ∧ ∀ r ∈ zeros32, r.length = 32) ∧
    applyRows zeros32 (gridRowsEx.map rowChars ++ [junkLine]) =
      applyRows zeros32 (gridRowsEx.map rowChars) ∧
    runAux 40 initSt (exInput ++ [junkLine]) =
      (some exPtat, some exAvg, some zeros32) := by
  have h := c3_shape_first32_extension
  refine ⟨h.1 40 exInput (some exPtat) (some exAvg) zeros32 exampleRunEq,
    h.2.1 zeros32 _ _ ?_, h.2.2 40 initSt exInput [junkLine] _ exampleRunEq ?_⟩
  · have hlen : (32 : ℕ) ≤ (gridRowsEx.map rowChars).length := by
      rw [List.length_map, gridRowsEx_len]
    rw [List.take_append_of_le_length hlen]
  · intro hx
    have hx2 : (some exPtat : Option ℚ) = none :=
      congrArg (fun r => r.1) hx
    exact Option.noConfusion hx2

/-- C4: `parse_uart_data` never returns a partial frame: every run result
is either a complete frame — PTAT, average and pixels all present — or
the all-`None` no-data triple. -/
theorem c4_complete_or_nothing (fuel : ℕ) (st : PSt)
    (input : List (List Char)) :
    (∃ p a px, runAux fuel st input = (some p, some a, some px)) ∨
      runAux fuel st input = (none, none, none) := by
  have h := runAux_shape fuel st input
  simpa [noData] using h

/-- C5: when the stream does not yield a complete valid frame within the
`PARSE_TIMEOUT` window, `parse_uart_data` returns `(None, None, None)`
rather than raising or returning partial data. -/
theorem c5_timeout_no_frame (fuel : ℕ) (input : List (List Char))
    (h : ∀ p a px, parse_uart_data fuel input ≠ (some p, some a, some px)) :
    parse_uart_data fuel input = (none, none, none) := by
  rcases runAux_shape fuel initSt input with ⟨p, a, px, hx⟩ | hx
  · exact absurd hx (h p a px)
  · simpa [noData] using hx

/-- C5 witness: a stream with both scalar lines but no grid rows. -/
theorem c5_witness :
    parse_uart_data 5 exNoGrid = (none, none, none) := by
  apply c5_timeout_no_frame
  intro p a px hx
  have hres : parse_uart_data 5 exNoGrid = (none, none, none) := by decide
  rw [hres] at hx
  have hx2 : (none : Option ℚ) = some p := congrArg (fun r => r.1) hx
  exact Option.noConfusion hx2

/-- C6: with the buffer within its 10000-character bound at the start of
a read pass, it is again within the bound after the pass, and whenever
appending the read line pushes it past 10000 characters the continuing
state has an empty buffer. -/
theorem c6_buffer_bound (st : PSt) (raw : List Char) (st2 : PSt)
    (hb : st.buffer.length ≤ 10000) (h : step st raw = .cont st2) :
    st2.buffer.length ≤ 10000 ∧
      (stripChars raw ≠ [] ∧
        st.buffer.length + (stripChars raw).length + 1 > 10000 →
        st2.buffer = []) :=
  step_cont_buffer h hb

/-- C7: whenever the float conversion of the matched grid lines fails,
the `except ValueError` branch clears the buffer and continues the loop
instead of raising or returning. -/
theorem c7_parse_error_clears (p a : Option ℚ) (px : List (List ℚ))
    (gls : List (List Char)) (h : (applyRows px gls).2 = false) :
    gridAttempt p a px gls = .cont ⟨p, a, (applyRows px gls).1, []⟩ := by
  unfold gridAttempt
  dsimp only
  rw [if_neg (by rw [h]; exact Bool.false_ne_true)]

/-- C7 witness: a hypothetical matched list whose conversion fails. -/
theorem c7_witness :
    gridAttempt (some exPtat) (some exAvg) zeros32 [['a']] =
      .cont ⟨some exPtat, some exAvg, (applyRows zeros32 [['a']]).1, []⟩ :=
  c7_parse_error_clears (some exPtat) (some exAvg) zeros32 [['a']]
    (by decide)

/-- C8: the numeric-parse-error branch is unreachable: every line matched
by the grid regex converts to exactly 32 floats, so whenever both scalars
are extracted and at least 32 grid lines are matched, `parse_uart_data`
returns a frame in that same pass. -/
theorem c8_matched_rows_convert :
    (∀ (buf l : List Char), l ∈ findallGrid buf →
      ∃ vs, rowFloats l = some vs ∧ vs.length = 32) ∧
    (∀ (st : PSt) (raw : List Char) (vp va : ℚ),
      stripChars raw ≠ [] →
      updPtat (bufAppend st (stripChars raw)) st.ptat = some vp →
      updAvg (bufAppend st (stripChars raw)) st.avg_temp = some va →
      (findallGrid (bufAppend st (stripChars raw))).length ≥ 32 →
      step st raw = .done (some vp, some va,
        some ((applyRows st.pixels
          (findallGrid (bufAppend st (stripChars raw)))).1))) := by
  constructor
  · intro buf l h
    exact rowFloats_of_matched (mem_findallGrid h)
  · intro st raw vp va hl hp ha hlen
    exact step_grid_success hl hp ha hlen

theorem rawC6_facts : stripChars rawC6 = rawC6 ∧ rawC6 ≠ [] ∧
    rawC6.length = 11 := by decide

theorem bigSt_step : step bigSt rawC6 = .cont ⟨none, none, zeros32, []⟩ := by
  have hstrip : stripChars rawC6 = rawC6 := rawC6_facts.1
  have hne : stripChars rawC6 ≠ [] := by
    rw [hstrip]; exact rawC6_facts.2.1
  have hbuf : bufAppend bigSt (stripChars rawC6) =
      List.replicate 9990 'x' ++ (rawC6 ++ ['\n']) := by
    show bigSt.buffer ++ stripChars rawC6 ++ ['\n'] = _
    rw [hstrip, show bigSt.buffer = List.replicate 9990 'x' from rfl,
      List.append_assoc]
  have hmem : ∀ c ∈ bufAppend bigSt (stripChars rawC6),
      c ≠ 'P' ∧ c ≠ 'v' := by
    rw [hbuf]
    intro c hc
    rcases List.mem_append.1 hc with hc | hc
    · rw [(List.mem_replicate.1 hc).2]
      exact ⟨by decide, by decide⟩
    · rcases List.mem_append.1 hc with hc | hc
      · unfold rawC6 at hc
        simp only [List.mem_cons, List.not_mem_nil, or_false] at hc
        rcases hc with rfl | rfl | rfl | rfl | rfl | rfl | rfl | rfl |
          rfl | rfl | rfl <;> exact ⟨by decide, by decide⟩
      · rcases List.mem_singleton.1 hc with rfl
        exact ⟨by decide, by decide⟩
  have hp : updPtat (bufAppend bigSt (stripChars rawC6)) bigSt.ptat = none := by
    rw [show bigSt.ptat = none from rfl]
    exact updPtat_of_search_none
      (searchPtat_none_of_no_P fun c hc => (hmem c hc).1)
  have ha : updAvg (bufAppend bigSt (stripChars rawC6)) bigSt.avg_temp
      = none := by
    rw [show bigSt.avg_temp = none from rfl]
    exact updAvg_of_search_none
      (searchAvg_none_of_no_v fun c hc => (hmem c hc).2)
  have hbig : (bufAppend bigSt (stripChars rawC6)).length > 10000 := by
    rw [hbuf, List.length_append, List.length_append, List.length_replicate,
      rawC6_facts.2.2, show (['\n'] : List Char).length = 1 from rfl]
    omega
  rw [step_eq hne, hp, ha,
    if_neg (show ¬(((none : Option ℚ).isSome &&
      (none : Option ℚ).isSome) = true) from by simp)]
  unfold overflowCheck
  rw [if_pos hbig]
  rfl

/-- C6 witness: a 9990-character buffer plus an 11-character read crosses
the bound and the continuing state has an empty buffer. -/
theorem c6_witness :
    ∃ st2, step bigSt rawC6 = .cont st2 ∧
      st2.buffer.length ≤ 10000 ∧ st2.buffer = [] := by
  have hb : bigSt.buffer.length ≤ 10000 := by
    rw [show bigSt.buffer = List.replicate 9990 'x' from rfl,
      List.length_replicate]
    norm_num
  have h := c6_buffer_bound bigSt rawC6 ⟨none, none, zeros32, []⟩ hb bigSt_step
  refine ⟨⟨none, none, zeros32, []⟩, bigSt_step, h.1, h.2 ⟨?_, ?_⟩⟩
  · rw [rawC6_facts.1]; exact rawC6_facts.2.1
  · rw [rawC6_facts.1, rawC6_facts.2.2,
      show bigSt.buffer = List.replicate 9990 'x' from rfl,
      List.length_replicate]
    omega

theorem st8_buf_step :
    bufAppend st8 (stripChars (rowChars zRowEx)) =
      linesBuf ((List.replicate 32 zRowEx).map rowChars) := by
  have hzne : zRowEx ≠ [] := by
    unfold zRowEx
    simp
  show st8.buffer ++ stripChars (rowChars zRowEx) ++ ['\n'] = _
  rw [stripChars_rowChars hzne,
    show st8.buffer = linesBuf ((List.replicate 31 zRowEx).map rowChars)
      from rfl,
    show (32 : ℕ) = 31 + 1 from rfl, List.replicate_succ',
    List.map_append, linesBuf_append]
  simp [linesBuf_cons, linesBuf_nil, List.append_assoc]

theorem replicate32_rows32 : ∀ r ∈ List.replicate 32 zRowEx, r.length = 32 := by
  intro r hr
  rw [(List.mem_replicate.1 hr).2]
  simp [zRowEx]

/-- C8 witness: with both scalars extracted and 31 buffered rows, reading
the 32nd row returns a frame in the same pass. -/
theorem c8_witness :
    step st8 (rowChars zRowEx) = .done (some exPtat, some exAvg,
      some ((applyRows st8.pixels
        (findallGrid (bufAppend st8 (stripChars (rowChars zRowEx))))).1)) := by
  have hzne : zRowEx ≠ [] := by
    unfold zRowEx
    simp
  have hne : stripChars (rowChars zRowEx) ≠ [] := by
    rw [stripChars_rowChars hzne]
    exact rowChars_ne_nil hzne
  have hchars : ∀ c ∈ bufAppend st8 (stripChars (rowChars zRowEx)),
      gridChar c := by
    rw [st8_buf_step]
    exact fun c hc => mem_linesBuf_rows hc
  have hp : updPtat (bufAppend st8 (stripChars (rowChars zRowEx))) st8.ptat
      = some exPtat := by
    rw [show st8.ptat = some exPtat from rfl]
    exact updPtat_of_search_none (searchPtat_none_of_no_P
      fun c hc => gridChar_ne_P (hchars c hc))
  have ha : updAvg (bufAppend st8 (stripChars (rowChars zRowEx))) st8.avg_temp
      = some exAvg := by
    rw [show st8.avg_temp = some exAvg from rfl]
    exact updAvg_of_search_none (searchAvg_none_of_no_v
      fun c hc => gridChar_ne_v (hchars c hc))
  have hlen : (findallGrid
      (bufAppend st8 (stripChars (rowChars zRowEx)))).length ≥ 32 := by
    rw [st8_buf_step, findallGrid_rows (List.replicate 32 zRowEx)
      replicate32_rows32]
    simp
  exact c8_matched_rows_convert.2 st8 (rowChars zRowEx) exPtat exAvg
    hne hp ha hlen

/-- C9: clearing the buffer never clears the scalars: across every
continuing pass an already-extracted PTAT or average value stays present;
and a returned frame may combine scalars read before a buffer reset with
grid lines read after it, as in the run whose third line overflows the
buffer. -/
theorem c9_scalars_survive_reset :
    (∀ (st : PSt) (raw : List Char) (st2 : PSt), step st raw = .cont st2 →
      (st.ptat.isSome = true → st2.ptat.isSome = true) ∧
      (st.avg_temp.isSome = true → st2.avg_temp.isSome = true)) ∧
    runAux 40 initSt combineInput = (some exPtat, some exAvg, some zeros32) :=
  ⟨fun _ _ _ h => step_cont_scalars h, runCombine⟩

set_option maxRecDepth 10000 in
/-- C9 witness: a concrete continuing pass keeps both scalars. -/
theorem c9_witness :
    (⟨some exPtat, some exAvg, zeros32, ['a', '\n']⟩ : PSt).ptat.isSome
      = true ∧
    (⟨some exPtat, some exAvg, zeros32, ['a', '\n']⟩ : PSt).avg_temp.isSome
      = true := by
  have h := c9_scalars_survive_reset.1
    ⟨some exPtat, some exAvg, zeros32, []⟩ ['a']
    ⟨some exPtat, some exAvg, zeros32, ['a', '\n']⟩ (by decide)
  exact ⟨h.1 (by decide), h.2 (by decide)⟩

/-- C10: the extracted scalars come from the leftmost match in the
buffer: with no `P` (resp. `A`) before the first PTAT (resp. average)
line, the extraction returns the first line's value, and a later
duplicate line never changes it. -/
theorem c10_first_match_wins :
    (∀ (pre mid post : List Char) (d1 d2 : Dec) (x1 x2 x3 x4 : Char)
      (old : Option ℚ),
      isHexB x1 = true → isHexB x2 = true →
      (∀ c ∈ pre, c ≠ 'P') →
      updPtat (pre ++ (ptatLineC d1 x1 x2 ++
        (mid ++ (ptatLineC d2 x3 x4 ++ post)))) old = some (decVal d1)) ∧
    (∀ (pre mid post : List Char) (d1 d2 : Dec) (old : Option ℚ),
      (∀ c ∈ pre, c ≠ 'A') →
      updAvg (pre ++ (avgLineC d1 ++
        (mid ++ (avgLineC d2 ++ post)))) old = some (decVal d1)) := by
  constructor
  · intro pre mid post d1 d2 x1 x2 x3 x4 old hx1 hx2 hpre
    apply updPtat_of_search_some
    rw [searchPtat_append hpre]
    exact searchPtat_of_matchAt (matchPtatAt_front d1 x1 x2 _ hx1 hx2)
  · intro pre mid post d1 d2 old hpre
    apply updAvg_of_search_some
    rw [searchAvg_append_no_A hpre]
    exact searchAvg_of_matchAt (matchAvgAt_front d1 _)

/-- C10 witness: two PTAT lines and two average lines with junk between;
the first value is extracted both times. -/
theorem c10_witness :
    updPtat (([] : List Char) ++ (ptatLineC pDecEx '1' 'F' ++
      (['z'] ++ (ptatLineC zDec '0' '0' ++ [])))) none = some exPtat ∧
    updAvg (([] : List Char) ++ (avgLineC aDecEx ++
      (['z'] ++ (avgLineC zDec ++ [])))) none = some exAvg := by
  constructor
  · have h := c10_first_match_wins.1 [] ['z'] [] pDecEx zDec '1' 'F' '0' '0'
      none (by decide) (by decide) (by intro c hc; exact absurd hc (by simp))
    rw [exPtat_val] at h
    exact h
  · have h := c10_first_match_wins.2 [] ['z'] [] aDecEx zDec none
      (by intro c hc; exact absurd hc (by simp))
    rw [exAvg_val] at h
    exact h

end D6T
